import Mathlib

/-!
Shallow embedding of the bricklink-tool repository (TypeScript) in Lean 4,
together with theorems settling the frozen claims about it.

Conventions of the embedding:
* JS strings are Lean `String`s; character comparisons use code points,
  which agrees with JS UTF-16 ordering on the Basic Multilingual Plane.
* JS `number` timestamps and counts are modelled as `Int` (or `ℚ` where
  the rate limiter does exact division by the configured rate).
* Fallible/stateful code is modelled by explicit state passing; the
  wall clock and the outcomes of network calls are explicit inputs.
-/

/-! ### JavaScript string primitives used by the source -/

/-- Whitespace characters stripped by `String.prototype.trim` (the ASCII
subset, which covers every input the repository handles). -/
def jsWhitespace : List Char := [' ', '\t', '\n', '\r']

def isJsWhitespace (c : Char) : Bool := jsWhitespace.contains c

/-- Model of `input.trim()`. -/
def jsTrim (s : String) : String :=
  ⟨((s.data.dropWhile isJsWhitespace).reverse.dropWhile isJsWhitespace).reverse⟩

def isAsciiDigit (c : Char) : Bool := decide (48 ≤ c.toNat ∧ c.toNat ≤ 57)

/-- Model of `String.prototype.toLowerCase` on ASCII letters. -/
def jsToLowerChar (c : Char) : Char :=
  if decide (65 ≤ c.toNat ∧ c.toNat ≤ 90) then Char.ofNat (c.toNat + 32) else c

def jsToLower (s : String) : String := ⟨s.data.map jsToLowerChar⟩

/-- Model of `String.prototype.toUpperCase` on ASCII letters. -/
def jsToUpperChar (c : Char) : Char :=
  if decide (97 ≤ c.toNat ∧ c.toNat ≤ 122) then Char.ofNat (c.toNat - 32) else c

def jsToUpper (s : String) : String := ⟨s.data.map jsToUpperChar⟩

/-! ### src/src/lib/utils/validation.ts -/

/-- Decision procedure for the regular expression `^\d{4,6}(-\d{1,2})?$`
from `setNumberSchema`.  A match must start with a digit run; since the
optional group begins with a dash, the run consumed by `\d{4,6}` in any
successful match is exactly the maximal leading digit run, so testing the
maximal run against the bounds is equivalent to the regex. -/
def matchSetNumberChars (cs : List Char) : Bool :=
  let ds := cs.takeWhile isAsciiDigit
  let rest := cs.dropWhile isAsciiDigit
  (decide (4 ≤ ds.length ∧ ds.length ≤ 6)) &&
    (match rest with
     | [] => true
     | c :: tl => c == '-' && tl.all isAsciiDigit && decide (1 ≤ tl.length ∧ tl.length ≤ 2))

/-- Model of `setNumberSchema`'s refine: the regex test applied to
`val.trim()`.  Note the schema returns the original (untrimmed) value on
success; only the test uses the trimmed string. -/
def setNumberSchemaTest (v : String) : Bool := matchSetNumberChars (jsTrim v).data

/-- The application-side condition union type `'new' | 'used'`. -/
inductive AppCond where
  | new
  | used
deriving DecidableEq, Repr

def condStr : AppCond → String
  | .new => "new"
  | .used => "used"

/-- An element of the validated `sets` array. -/
structure SetEntry where
  setNumber : String
  condition : AppCond
deriving DecidableEq, Repr

/-- Raw JSON entry submitted to the lookups endpoint before validation. -/
structure RawSetInput where
  setNumber : String
  condition : String
deriving DecidableEq, Repr

def msgSetNumberInvalid : String :=
  "Set number must be numeric (e.g., 75158) or in format XXXXX-X (e.g., 10188-1)"

def msgConditionInvalid : String := "Condition must be \"new\" or \"used\""

def msgMinSets : String := "At least one set is required"

def msgMaxSets : String := "Maximum 600 sets allowed per job"

/-- Model of `conditionSchema` (`z.enum(['new', 'used'])`): exact string
comparison, no trimming and no case folding. -/
def conditionEnumParse (v : String) : Option AppCond :=
  if v = "new" then some AppCond.new
  else if v = "used" then some AppCond.used
  else none

/-- Error messages produced for one entry by `setInputSchema`. -/
def setInputErrors (e : RawSetInput) : List String :=
  (if setNumberSchemaTest e.setNumber then [] else [msgSetNumberInvalid]) ++
    (if (conditionEnumParse e.condition).isSome then [] else [msgConditionInvalid])

/-- Error messages produced by `lookupJobRequestSchema.safeParse` on the
`sets` array (zod collects the array min/max violations together with the
per-element failures). -/
def lookupJobRequestErrors (sets : List RawSetInput) : List String :=
  (if sets.length < 1 then [msgMinSets] else []) ++
    (if 600 < sets.length then [msgMaxSets] else []) ++
    sets.flatMap setInputErrors

/-- The parsed value handed to the route when validation succeeds: each
entry keeps its setNumber verbatim and its condition decoded to the enum.
(When every entry parses, `filterMap` is a plain `map`.) -/
def parseValidatedSets (sets : List RawSetInput) : List SetEntry :=
  sets.filterMap (fun e => (conditionEnumParse e.condition).map (fun c => ⟨e.setNumber, c⟩))

/-- Model of `normalizeSetNumber`: append `-1` to bare 4-6 digit numbers,
leave anything containing a dash (or not matching `^\d{4,6}$`) alone. -/
def normalizeSetNumber (input : String) : String :=
  let trimmed := jsTrim input
  if trimmed.data.contains '-' then trimmed
  else if trimmed.data.all isAsciiDigit &&
      decide (4 ≤ trimmed.data.length ∧ trimmed.data.length ≤ 6) then
    trimmed ++ "-1"
  else trimmed

/-- Result shape of `parseSetNumber`. -/
structure ParsedSetNumber where
  setNumber : String
  isValid : Bool
  errorMsg : Option String
deriving DecidableEq, Repr

/-- Model of `parseSetNumber`: validate the trimmed input against the
regex, normalizing on success. -/
def parseSetNumber (input : String) : ParsedSetNumber :=
  let trimmed := jsTrim input
  if setNumberSchemaTest trimmed then ⟨normalizeSetNumber trimmed, true, none⟩
  else ⟨trimmed, false, some msgSetNumberInvalid⟩

/-- Model of the client-side `parseCondition` (case-insensitive, accepts
`n`/`u`); used by the CSV parser, not by the HTTP endpoint schema. -/
def parseCondition (value : Option String) : Option AppCond :=
  match value with
  | none => none
  | some v =>
    if v = "" then none
    else
      let normalized := jsToLower (jsTrim v)
      if normalized = "new" ∨ normalized = "n" then some AppCond.new
      else if normalized = "used" ∨ normalized = "u" then some AppCond.used
      else none

/-- The string key `` `${set.setNumber}-${set.condition}` `` used by
`deduplicateSets`' seen-set. -/
def dedupKey (s : SetEntry) : String := s.setNumber ++ "-" ++ condStr s.condition

def deduplicateSetsGo (seen : List String) : List SetEntry → List SetEntry
  | [] => []
  | s :: rest =>
    if dedupKey s ∈ seen then deduplicateSetsGo seen rest
    else s :: deduplicateSetsGo (dedupKey s :: seen) rest

/-- Model of `deduplicateSets`: walk the list keeping entries whose key
has not been seen. -/
def deduplicateSets (sets : List SetEntry) : List SetEntry := deduplicateSetsGo [] sets

/-- Specification-side first-occurrence deduplication on the pair itself
(claim C5's wording): keep each head and drop its later duplicates. -/
def keepFirstOccurrences : List SetEntry → List SetEntry
  | [] => []
  | s :: rest => s :: keepFirstOccurrences (rest.filter (fun t => decide (t ≠ s)))
termination_by l => l.length
decreasing_by
  simp only [List.length_cons]
  exact Nat.lt_succ_of_le (List.length_filter_le _ _)

/-! ### src/src/lib/utils/formatting.ts (the parts the service uses) -/

/-- The BrickLink condition union type `'N' | 'U'`. -/
inductive BrickCondition where
  | N
  | U
deriving DecidableEq, Repr

def toBricklinkCondition : AppCond → BrickCondition
  | .new => .N
  | .used => .U

/-- Global left-to-right, non-overlapping replacement of `pat` by `rep`,
the behaviour of `String.prototype.replace` with a `g`-flagged literal
pattern. -/
def replaceSub (pat rep : List Char) : List Char → List Char
  | [] => []
  | c :: cs =>
    if _h : pat ≠ [] ∧ pat.isPrefixOf (c :: cs) then
      rep ++ replaceSub pat rep (List.drop (pat.length - 1) cs)
    else c :: replaceSub pat rep cs
termination_by l => l.length
decreasing_by
  · simp only [List.length_cons]
    refine Nat.lt_succ_of_le ?_
    rw [List.length_drop]
    exact Nat.sub_le _ _
  · simp only [List.length_cons]
    exact Nat.lt_succ_self _

def aposChar : Char := Char.ofNat 39

/-- The named-entity replacement chain of the server-side branch of
`decodeHtmlEntities`.  The two numeric-entity regex passes that precede
it are omitted from the model: no verified claim inspects the rewritten
characters of a name, only whether a name is present at all. -/
def decodeEntitiesChain (s : String) : String :=
  ⟨replaceSub "&amp;".data "&".data
    (replaceSub "&gt;".data ">".data
      (replaceSub "&lt;".data "<".data
        (replaceSub "&nbsp;".data " ".data
          (replaceSub "&quot;".data "\"".data
            (replaceSub "&apos;".data [aposChar] s.data)))))⟩

/-- Model of `decodeHtmlEntities`: a falsy argument (null, undefined, or
the empty string) yields undefined, otherwise the entity chain runs. -/
def decodeHtmlEntities (text : Option String) : Option String :=
  match text with
  | none => none
  | some s => if s = "" then none else some (decodeEntitiesChain s)

/-! ### src/unnamed/part_004 — the in-memory TTL cache -/

/-- One record of the cache `Map` (`CachedPriceData`). -/
structure CachedPriceData where
  setNumber : String
  condition : AppCond
  currency : String
  itemName : Option String
  timesSold : Option Int
  avgSoldPrice : Option String
  itemsForSale : Option Int
  avgSalePrice : Option String
  cachedAt : Int
deriving DecidableEq, Repr

/-- The argument shape of `setCachedData` (`Omit<CachedPriceData, 'cachedAt'>`). -/
structure CachedPriceInput where
  setNumber : String
  condition : AppCond
  currency : String
  itemName : Option String
  timesSold : Option Int
  avgSoldPrice : Option String
  itemsForSale : Option Int
  avgSalePrice : Option String
deriving DecidableEq, Repr

/-- The process-wide `Map<string, CachedPriceData>`, as an association
list whose keys are unique. -/
abbrev CacheMap := List (String × CachedPriceData)

def mapGet (m : CacheMap) (k : String) : Option CachedPriceData :=
  (m.find? (fun kv => kv.1 == k)).map (fun kv => kv.2)

/-- `Map.set`: replace in place when the key exists, append otherwise. -/
def mapSet (m : CacheMap) (k : String) (v : CachedPriceData) : CacheMap :=
  if m.any (fun kv => kv.1 == k) then
    m.map (fun kv => if kv.1 == k then (k, v) else kv)
  else m ++ [(k, v)]

/-- `Map.delete`. -/
def mapDelete (m : CacheMap) (k : String) : CacheMap := m.eraseP (fun kv => kv.1 == k)

/-- Model of `getCacheKey`. -/
def getCacheKey (setNumber : String) (condition : AppCond) (currency : String) : String :=
  setNumber ++ ":" ++ condStr condition ++ ":" ++ currency

/-- `CACHE_TTL_HOURS` converted to milliseconds. -/
def cacheTtlMs (ttlHours : ℕ) : Int := (ttlHours : Int) * 60 * 60 * 1000

/-- Model of `getCachedData`: absent on miss; on a hit older than the TTL
the entry is deleted and absent is returned; otherwise the entry. -/
def getCachedData (ttlHours : ℕ) (now : Int) (cache : CacheMap)
    (setNumber : String) (condition : AppCond) (currency : String) :
    Option CachedPriceData × CacheMap :=
  let key := getCacheKey setNumber condition currency
  match mapGet cache key with
  | none => (none, cache)
  | some cached =>
    if cacheTtlMs ttlHours < now - cached.cachedAt then (none, mapDelete cache key)
    else (some cached, cache)

/-- Model of `setCachedData`: unconditional insert/overwrite stamped with
the current time. -/
def setCachedData (now : Int) (cache : CacheMap) (data : CachedPriceInput) : CacheMap :=
  mapSet cache (getCacheKey data.setNumber data.condition data.currency)
    ⟨data.setNumber, data.condition, data.currency, data.itemName, data.timesSold,
      data.avgSoldPrice, data.itemsForSale, data.avgSalePrice, now⟩

/-- Model of `clearAllCache`. -/
def clearAllCache : CacheMap := []

/-! ### src/src/lib/services/lookup-service.ts -/

/-- The fields of the upstream price-guide payload that the service
reads (`unit_quantity`, `avg_price`). -/
structure PriceGuideData where
  unit_quantity : Int
  avg_price : String
deriving DecidableEq, Repr

/-- The field of the item-catalog payload that the service reads. -/
structure ItemInfoData where
  name : Option String
deriving DecidableEq, Repr

inductive LookupStatus where
  | success
  | error
deriving DecidableEq, Repr

/-- The `SetPriceResult` record returned per item. -/
structure SetPriceResult where
  setNumber : String
  setName : Option String
  condition : AppCond
  timesSold : Option Int
  avgSoldPrice : Option String
  minSoldPrice : Option String
  maxSoldPrice : Option String
  itemsForSale : Option Int
  avgSalePrice : Option String
  minSalePrice : Option String
  maxSalePrice : Option String
  status : LookupStatus
  errorMessage : Option String
  currency : String
  lastUpdated : Option Int
deriving DecidableEq, Repr

/-- Model of `soldData?.unit_quantity || null`: the optional chaining
yields null for a failed sub-call, and the falsy-or additionally
collapses a zero quantity to null. -/
def jsQtyOrNull : Option PriceGuideData → Option Int
  | none => none
  | some d => if d.unit_quantity = 0 then none else some d.unit_quantity

/-- Model of `soldData?.avg_price || null` (an empty string is falsy). -/
def jsPriceOrNull : Option PriceGuideData → Option String
  | none => none
  | some d => if d.avg_price = "" then none else some d.avg_price

/-- The error-shaped `SetPriceResult` built by the outer catch of
`fetchSetPriceData` (source lines 157-171). -/
def errorLookupResult (sn : String) (cond : AppCond) (cur : String) (msg : String) :
    SetPriceResult :=
  ⟨sn, none, cond, none, none, none, none, none, none, none, none,
    LookupStatus.error, some msg, cur, none⟩

/-- The fresh-path `SetPriceResult` assembled from the three sub-call
outcomes (source lines 106-121).  A sub-call that failed was already
converted to null by its own `.catch`, so it arrives here as `none`. -/
def buildFreshResult (sn : String) (cond : AppCond) (cur : String) (now : Int)
    (sold stock : Option PriceGuideData) (item : Option ItemInfoData) : SetPriceResult :=
  { setNumber := sn
    setName := decodeHtmlEntities (item.bind (fun i => i.name))
    condition := cond
    timesSold := jsQtyOrNull sold
    avgSoldPrice := jsPriceOrNull sold
    minSoldPrice := none
    maxSoldPrice := none
    itemsForSale := jsQtyOrNull stock
    avgSalePrice := jsPriceOrNull stock
    minSalePrice := none
    maxSalePrice := none
    status := LookupStatus.success
    errorMessage := none
    currency := cur
    lastUpdated := some now }

/-- The cache record written by the fresh path (source lines 133-142). -/
def freshCacheInput (sn : String) (cond : AppCond) (cur : String)
    (sold stock : Option PriceGuideData) (item : Option ItemInfoData) : CachedPriceInput :=
  { setNumber := sn
    condition := cond
    currency := cur
    itemName := decodeHtmlEntities (item.bind (fun i => i.name))
    timesSold := jsQtyOrNull sold
    avgSoldPrice := jsPriceOrNull sold
    itemsForSale := jsQtyOrNull stock
    avgSalePrice := jsPriceOrNull stock }

/-- The fresh (cache-missing) path of `fetchSetPriceData`: assemble the
result and write it to the cache.  Every expression of the translated
path is total — each of the three sub-calls carries its own
`.catch(() => null)` — so the outer catch producing `errorLookupResult`
has nothing left to catch and the path always reports success. -/
def fetchSetPriceFresh (now : Int) (cache : CacheMap)
    (sn : String) (cond : AppCond) (cur : String)
    (sold stock : Option PriceGuideData) (item : Option ItemInfoData) :
    SetPriceResult × CacheMap :=
  (buildFreshResult sn cond cur now sold stock item,
    setCachedData now cache (freshCacheInput sn cond cur sold stock item))

/-- Model of `fetchSetPriceData`: consult the cache unless forced, build
the result from the cached record on a hit, otherwise run the fresh
path. -/
def fetchSetPriceData (ttlHours : ℕ) (now : Int) (cache : CacheMap)
    (sn : String) (cond : AppCond) (cur : String) (forceRefresh : Bool)
    (sold stock : Option PriceGuideData) (item : Option ItemInfoData) :
    SetPriceResult × CacheMap :=
  if forceRefresh then fetchSetPriceFresh now cache sn cond cur sold stock item
  else
    match getCachedData ttlHours now cache sn cond cur with
    | (some cached, cache2) =>
      ({ setNumber := cached.setNumber
         setName := decodeHtmlEntities cached.itemName
         condition := cached.condition
         timesSold := cached.timesSold
         avgSoldPrice := cached.avgSoldPrice
         minSoldPrice := none
         maxSoldPrice := none
         itemsForSale := cached.itemsForSale
         avgSalePrice := cached.avgSalePrice
         minSalePrice := none
         maxSalePrice := none
         status := LookupStatus.success
         errorMessage := none
         currency := cached.currency
         lastUpdated := some cached.cachedAt }, cache2)
    | (none, cache2) => fetchSetPriceFresh now cache2 sn cond cur sold stock item

/-- The outcomes of the three upstream sub-calls for one scheduled item,
already run through their individual catches. -/
structure SubCallData where
  sold : Option PriceGuideData
  stock : Option PriceGuideData
  item : Option ItemInfoData
deriving DecidableEq, Repr

def processSetsGo (ttlHours : ℕ) (now : Int) (outs : ℕ → SubCallData)
    (cur : String) (fr : Bool) :
    ℕ → CacheMap → List SetEntry → List SetPriceResult × CacheMap
  | _, cache, [] => ([], cache)
  | i, cache, s :: rest =>
    let step := fetchSetPriceData ttlHours now cache s.setNumber s.condition cur fr
      (outs i).sold (outs i).stock (outs i).item
    let restRun := processSetsGo ttlHours now outs cur fr (i + 1) step.2 rest
    (step.1 :: restRun.1, restRun.2)

/-- Model of `processSets`: one `fetchSetPriceData` unit per input entry,
results in input order (`Promise.all` keeps positional order; the shared
cache is threaded through in schedule order, of which left-to-right is
one admissible interleaving of the `pLimit(3)` pool). -/
def processSets (ttlHours : ℕ) (now : Int) (outs : ℕ → SubCallData)
    (cache : CacheMap) (sets : List SetEntry) (cur : String) (fr : Bool) :
    List SetPriceResult × CacheMap :=
  processSetsGo ttlHours now outs cur fr 0 cache sets

/-! ### src/src/app/api/lookups/route.ts -/

/-- Outcome of the POST handler.  The `completed` constructor is the only
one that reaches `processSets`; every other constructor returns a 400
response before any upstream call. -/
inductive RouteResult where
  | validationError (details : List String)
  | noValidSets
  | tooMany
  | completed (totalSets : ℕ) (processed : List SetEntry)
deriving DecidableEq, Repr

/-- Model of the POST handler's control flow: schema validation, optional
cache clear (a pure no-op for the returned decision), deduplication, the
two size re-checks, then processing. -/
def routePOST (sets : List RawSetInput) (_forceRefresh : Bool) : RouteResult :=
  let errs := lookupJobRequestErrors sets
  if errs.isEmpty then
    let parsed := parseValidatedSets sets
    let uniqueSets := deduplicateSets parsed
    if uniqueSets.length = 0 then RouteResult.noValidSets
    else if 600 < uniqueSets.length then RouteResult.tooMany
    else RouteResult.completed uniqueSets.length uniqueSets
  else RouteResult.validationError errs

/-! ### src/src/lib/bricklink/oauth.ts — the Signer

The HMAC-SHA1 and base64 primitives come from Node's `crypto` module;
they are reimplemented here as executable byte-level functions so the
whole signature pipeline is concrete. -/

/-- UTF-8 encoding of a code point, bytes as `ℕ`. -/
def utf8Bytes (n : ℕ) : List ℕ :=
  if n < 128 then [n]
  else if n < 2048 then [192 + n / 64, 128 + n % 64]
  else if n < 65536 then [224 + n / 4096, 128 + (n / 64) % 64, 128 + n % 64]
  else [240 + n / 262144, 128 + (n / 4096) % 64, 128 + (n / 64) % 64, 128 + n % 64]

/-- UTF-8 bytes of a string (what `hmac.update(string)` hashes). -/
def strBytes (s : String) : List ℕ := s.data.flatMap (fun c => utf8Bytes c.toNat)

def hexDigitUpper (n : ℕ) : Char :=
  if n < 10 then Char.ofNat (48 + n) else Char.ofNat (55 + n)

/-- The `%XX` escape of one byte, uppercase hex as `encodeURIComponent`
produces. -/
def percentByte (b : ℕ) : List Char := ['%', hexDigitUpper (b / 16), hexDigitUpper (b % 16)]

def isAsciiAlnum (c : Char) : Bool :=
  isAsciiDigit c || decide (65 ≤ c.toNat ∧ c.toNat ≤ 90) || decide (97 ≤ c.toNat ∧ c.toNat ≤ 122)

/-- The characters `encodeURIComponent` leaves unescaped:
`A-Z a-z 0-9 - _ . ! ~ * ' ( )`. -/
def encodeURIComponentUnreserved (c : Char) : Bool :=
  isAsciiAlnum c || [ '-', '_', '.', '!', '~', '*', Char.ofNat 39, '(', ')'].contains c

/-- Model of `encodeURIComponent`. -/
def encodeURIComponentModel (s : String) : String :=
  ⟨s.data.flatMap (fun c =>
    if encodeURIComponentUnreserved c then [c]
    else (utf8Bytes c.toNat).flatMap percentByte)⟩

/-- Global single-character replacement, the behaviour of
`.replace(/x/g, "….")` for a one-character pattern. -/
def replaceCharAll (c : Char) (rep : List Char) (l : List Char) : List Char :=
  l.flatMap (fun x => if x == c then rep else [x])

/-- Model of `OAuth1.percentEncode`: `encodeURIComponent` followed by the
five extra escapes for `! ' ( ) *`. -/
def percentEncode (s : String) : String :=
  ⟨replaceCharAll '*' "%2A".data
    (replaceCharAll ')' "%29".data
      (replaceCharAll '(' "%28".data
        (replaceCharAll (Char.ofNat 39) "%27".data
          (replaceCharAll '!' "%21".data (encodeURIComponentModel s).data))))⟩

/-- String comparison used by JS `Array.prototype.sort()` without a
comparator: lexicographic by UTF-16 code unit, modelled as the
lexicographic order on the code-point lists (identical on the Basic
Multilingual Plane).  The model sorts with a stable insertion sort; for
the unique keys of a JS object any correct sort produces the same
list. -/
def jsKeyLe (a b : String) : Prop := a.data ≤ b.data

instance : IsTotal String (fun a b => a.data ≤ b.data) :=
  ⟨fun a b => le_total a.data b.data⟩

instance : IsTrans String (fun a b => a.data ≤ b.data) :=
  ⟨fun _ _ _ hab hbc => le_trans hab hbc⟩

instance : IsAntisymm String (fun a b => a.data ≤ b.data) :=
  ⟨fun _ _ h1 h2 => String.ext (le_antisymm h1 h2)⟩

instance : IsTotal (String × String) (fun p q => p.1.data ≤ q.1.data) :=
  ⟨fun a b => le_total a.1.data b.1.data⟩

instance : IsTrans (String × String) (fun p q => p.1.data ≤ q.1.data) :=
  ⟨fun _ _ _ hab hbc => le_trans hab hbc⟩

/-- The value `params[key]` once `key` is known to be a key of the map
(JS object keys are unique). -/
def paramLookup (params : List (String × String)) (k : String) : String :=
  ((params.find? (fun p => p.1 == k)).map (fun p => p.2)).getD ""

/-- Model of the `sortedParams` computation in `generateSignature`:
sort the RAW keys ascending, then percent-encode each key and its
value and join with `&`. -/
def sortedParamsString (params : List (String × String)) : String :=
  String.intercalate "&"
    ((List.insertionSort (fun a b => a.data ≤ b.data) (params.map (fun p => p.1))).map
      (fun k => percentEncode k ++ "=" ++ percentEncode (paramLookup params k)))

/-- Model of the `signatureBase` computation:
`[method.toUpperCase(), percentEncode(url), percentEncode(sortedParams)].join('&')`. -/
def signatureBaseString (method url : String) (params : List (String × String)) : String :=
  String.intercalate "&"
    [jsToUpper method, percentEncode url, percentEncode (sortedParamsString params)]

/-- Model of the `signingKey` computation. -/
def signingKey (consumerSecret tokenSecret : String) : String :=
  percentEncode consumerSecret ++ "&" ++ percentEncode tokenSecret

/-! SHA-1, HMAC-SHA1 and base64 (models of Node `crypto` used by the
Signer), over byte lists with arithmetic mod 2^32. -/

def w32 (n : ℕ) : ℕ := n % 4294967296

def rotl32 (k n : ℕ) : ℕ := w32 ((n <<< k) ||| (n >>> (32 - k)))

def not32 (n : ℕ) : ℕ := n ^^^ 4294967295

def sha1F (t b c d : ℕ) : ℕ :=
  if t < 20 then (b &&& c) ||| (not32 b &&& d)
  else if t < 40 then b ^^^ c ^^^ d
  else if t < 60 then (b &&& c) ||| (b &&& d) ||| (c &&& d)
  else b ^^^ c ^^^ d

def sha1K (t : ℕ) : ℕ :=
  if t < 20 then 1518500249
  else if t < 40 then 1859775393
  else if t < 60 then 2400959708
  else 3395469782

/-- Group bytes into big-endian 32-bit words. -/
def bytesToWords : List ℕ → List ℕ
  | b0 :: b1 :: b2 :: b3 :: rest =>
    (b0 * 16777216 + b1 * 65536 + b2 * 256 + b3) :: bytesToWords rest
  | _ => []

/-- Extend a 16-word block to the 80-word message schedule. -/
def sha1Schedule (block : List ℕ) : List ℕ :=
  (List.range 64).foldl
    (fun ws _ => ws ++
      [rotl32 1 ((ws.getD (ws.length - 3) 0) ^^^ (ws.getD (ws.length - 8) 0) ^^^
        (ws.getD (ws.length - 14) 0) ^^^ (ws.getD (ws.length - 16) 0))])
    block

abbrev Sha1State := ℕ × ℕ × ℕ × ℕ × ℕ

def sha1Compress (h : Sha1State) (block : List ℕ) : Sha1State :=
  let ws := sha1Schedule block
  let fin := (List.range 80).foldl
    (fun st t =>
      let a := st.1
      let b := st.2.1
      let c := st.2.2.1
      let d := st.2.2.2.1
      let e := st.2.2.2.2
      let temp := w32 (rotl32 5 a + sha1F t b c d + e + sha1K t + ws.getD t 0)
      (temp, a, rotl32 30 b, c, d)) h
  (w32 (h.1 + fin.1), w32 (h.2.1 + fin.2.1), w32 (h.2.2.1 + fin.2.2.1),
    w32 (h.2.2.2.1 + fin.2.2.2.1), w32 (h.2.2.2.2 + fin.2.2.2.2))

def sha1Blocks (h : Sha1State) : List ℕ → Sha1State
  | [] => h
  | w :: ws => sha1Blocks (sha1Compress h ((w :: ws).take 16)) (ws.drop 15)
termination_by l => l.length
decreasing_by
  simp only [List.length_cons]
  rw [List.length_drop]
  omega

/-- Standard SHA-1 padding: `0x80`, zeros, 8-byte big-endian bit length. -/
def sha1Pad (msg : List ℕ) : List ℕ :=
  let ml := msg.length
  let bitLen := 8 * ml
  let padZeros := (119 - ml % 64) % 64
  msg ++ [128] ++ List.replicate padZeros 0 ++
    [(bitLen >>> 56) &&& 255, (bitLen >>> 48) &&& 255, (bitLen >>> 40) &&& 255,
      (bitLen >>> 32) &&& 255, (bitLen >>> 24) &&& 255, (bitLen >>> 16) &&& 255,
      (bitLen >>> 8) &&& 255, bitLen &&& 255]

def wordBytes (w : ℕ) : List ℕ := [(w >>> 24) &&& 255, (w >>> 16) &&& 255, (w >>> 8) &&& 255, w &&& 255]

/-- SHA-1 of a byte list (20-byte digest). -/
def sha1 (msg : List ℕ) : List ℕ :=
  let fin := sha1Blocks (1732584193, 4023233417, 2562383102, 271733878, 3285377520)
    (bytesToWords (sha1Pad msg))
  wordBytes fin.1 ++ wordBytes fin.2.1 ++ wordBytes fin.2.2.1 ++
    wordBytes fin.2.2.2.1 ++ wordBytes fin.2.2.2.2

/-- HMAC-SHA1 (`crypto.createHmac('sha1', key)`), block size 64. -/
def hmacSha1 (key msg : List ℕ) : List ℕ :=
  let k0 := if 64 < key.length then sha1 key else key
  let k := k0 ++ List.replicate (64 - k0.length) 0
  sha1 ((k.map (fun b => b ^^^ 92)) ++ sha1 ((k.map (fun b => b ^^^ 54)) ++ msg))

def base64Alphabet : List Char :=
  "ABCDEFGHIJKLMNOPQRSTUVWXYZabcdefghijklmnopqrstuvwxyz0123456789+/".data

def base64Char (n : ℕ) : Char := base64Alphabet.getD n (Char.ofNat 65)

def base64Go : List ℕ → List Char
  | [] => []
  | [b0] => [base64Char (b0 >>> 2), base64Char ((b0 &&& 3) <<< 4), '=', '=']
  | [b0, b1] =>
    [base64Char (b0 >>> 2), base64Char (((b0 &&& 3) <<< 4) ||| (b1 >>> 4)),
      base64Char ((b1 &&& 15) <<< 2), '=']
  | b0 :: b1 :: b2 :: rest =>
    [base64Char (b0 >>> 2), base64Char (((b0 &&& 3) <<< 4) ||| (b1 >>> 4)),
      base64Char (((b1 &&& 15) <<< 2) ||| (b2 >>> 6)), base64Char (b2 &&& 63)] ++ base64Go rest

/-- Base64 encoding of a byte list (`digest('base64')`). -/
def base64Encode (bytes : List ℕ) : String := ⟨base64Go bytes⟩

/-- Model of `OAuth1.generateSignature`: base64 of the HMAC-SHA1 of the
signature base string under the signing key. -/
def generateSignature (consumerSecret tokenSecret method url : String)
    (params : List (String × String)) : String :=
  base64Encode (hmacSha1 (strBytes (signingKey consumerSecret tokenSecret))
    (strBytes (signatureBaseString method url params)))

/-- Specification-side parameter string following claim C8's words as
amended: sort the key/value pairs by RAW key ascending, then join the
percent-encoded pairs.  (The source sorts the key list and looks each
key back up; for a map with unique keys the two coincide.) -/
def specSortedPairsParamString (params : List (String × String)) : String :=
  String.intercalate "&"
    ((List.insertionSort (fun p q : String × String => p.1.data ≤ q.1.data) params).map
      (fun p => percentEncode p.1 ++ "=" ++ percentEncode p.2))

/-- Specification-side parameter string following claim C8 exactly as
written: sort by PERCENT-ENCODED key ascending. -/
def claimEncodedKeySortedParamString (params : List (String × String)) : String :=
  String.intercalate "&"
    ((List.insertionSort (fun p q : String × String => p.1.data ≤ q.1.data)
        (params.map (fun p => (percentEncode p.1, percentEncode p.2)))).map
      (fun p => p.1 ++ "=" ++ p.2))

/-- Base string built from the spec-side (amended) parameter string. -/
def specSignatureBaseString (method url : String) (params : List (String × String)) : String :=
  String.intercalate "&"
    [jsToUpper method, percentEncode url, percentEncode (specSortedPairsParamString params)]

/-! ### src/unnamed/part_003 — BricklinkClient.makeRequest retry loop

The loop is modelled as a function of the per-attempt fetch outcomes.
Each dispatched attempt consumes one outcome; the trace records how many
attempts were dispatched, every sleep (with the zero-based attempt index
that requested it), and the returned value or the thrown error. -/

/-- What `fetch` produced for one attempt: a 2xx envelope, a non-ok HTTP
response (with status text, optional parsed `Retry-After` header and the
three message fields the error handler probes), or a network-level
failure. -/
inductive FetchOutcome where
  | success (data : String)
  | httpError (status : ℕ) (statusText : String) (retryAfterHeader : Option ℕ)
      (metaMessage errMessage bodyMessage : Option String)
  | networkError (msg : String)
deriving DecidableEq, Repr

/-- JS truthiness chain `a || b || c || dflt` over nullable strings (the
empty string is falsy). -/
def jsFirstTruthy : List (Option String) → String → String
  | [], dflt => dflt
  | none :: rest, dflt => jsFirstTruthy rest dflt
  | some s :: rest, dflt => if s = "" then jsFirstTruthy rest dflt else s

/-- The message of the `Error` thrown for a non-retried client error:
`` `BrickLink API error: ${status} - ${errorMessage}` `` where
`errorMessage` probes `meta.message`, `error.message`, `message`, then
the status text. -/
def clientErrorMessage (status : ℕ) (statusText : String)
    (mm em bm : Option String) : String :=
  "BrickLink API error: " ++ toString status ++ " - " ++ jsFirstTruthy [mm, em, bm] statusText

inductive SleepCause where
  | retryAfter429
  | backoff5xx
  | backoffCaught
deriving DecidableEq, Repr

structure SleepEvent where
  attempt : ℕ
  cause : SleepCause
  ms : ℕ
deriving DecidableEq, Repr

inductive RequestOutcome where
  | ok (data : String)
  | thrown (msg : String)
deriving DecidableEq, Repr

structure RequestTrace where
  attempts : ℕ
  sleeps : List SleepEvent
  result : RequestOutcome
deriving DecidableEq, Repr

def maxRetries : ℕ := 3

/-- The 5xx / caught-error backoff: `Math.min(1000 * Math.pow(2, attempt), 10000)`. -/
def backoffMs (attempt : ℕ) : ℕ := min (1000 * 2 ^ attempt) 10000

/-- One step per attempt of the retry loop in `makeRequest`.  A 429
sleeps `Retry-After` seconds (default 60) and continues; a 5xx sleeps
the exponential backoff and continues; any other non-ok status throws a
client error which the surrounding catch-all captures as `lastError` and
— when attempts remain — sleeps the same backoff before the next
iteration; a network error follows the same caught path.  When the loop
exhausts its attempts the last captured error (or the fallback message)
is thrown. -/
def makeRequestAux (f : ℕ → FetchOutcome) (lastError : Option String)
    (attempt : ℕ) : ℕ → RequestTrace
  | 0 => ⟨0, [], RequestOutcome.thrown (lastError.getD "Request failed after all retries")⟩
  | fuel + 1 =>
    match f attempt with
    | .success d => ⟨1, [], RequestOutcome.ok d⟩
    | .httpError status stText ra mm em bm =>
      if status = 429 then
        let rest := makeRequestAux f lastError (attempt + 1) fuel
        ⟨rest.attempts + 1, ⟨attempt, SleepCause.retryAfter429, (ra.getD 60) * 1000⟩ :: rest.sleeps,
          rest.result⟩
      else if 500 ≤ status then
        let rest := makeRequestAux f lastError (attempt + 1) fuel
        ⟨rest.attempts + 1, ⟨attempt, SleepCause.backoff5xx, backoffMs attempt⟩ :: rest.sleeps,
          rest.result⟩
      else
        let msg := clientErrorMessage status stText mm em bm
        let rest := makeRequestAux f (some msg) (attempt + 1) fuel
        if attempt < maxRetries - 1 then
          ⟨rest.attempts + 1, ⟨attempt, SleepCause.backoffCaught, backoffMs attempt⟩ :: rest.sleeps,
            rest.result⟩
        else ⟨rest.attempts + 1, rest.sleeps, rest.result⟩
    | .networkError m =>
      let rest := makeRequestAux f (some m) (attempt + 1) fuel
      if attempt < maxRetries - 1 then
        ⟨rest.attempts + 1, ⟨attempt, SleepCause.backoffCaught, backoffMs attempt⟩ :: rest.sleeps,
          rest.result⟩
      else ⟨rest.attempts + 1, rest.sleeps, rest.result⟩

/-- Model of `makeRequest`'s retry loop (`maxRetries = 3`). -/
def makeRequest (f : ℕ → FetchOutcome) : RequestTrace := makeRequestAux f none 0 maxRetries

/-- The sleeps of a trace that belong to the exponential-backoff ladder
(everything except the 429 `Retry-After` sleeps), in order. -/
def ladderSleeps (tr : RequestTrace) : List ℕ :=
  (tr.sleeps.filter (fun e => decide (e.cause ≠ SleepCause.retryAfter429))).map (fun e => e.ms)

/-- The backoff sequence claim C6 predicts when 429 attempts leave the
ladder untouched: the k-th non-429 backoff is `min(1000·2^k, 10000)`. -/
def claimBackoffLadder (n : ℕ) : List ℕ := (List.range n).map backoffMs

/-! ### src/unnamed/part_003 — BricklinkClient.waitForRateLimit

Time is `ℚ` milliseconds (the source divides 60000 by the configured
rate exactly).  Sleeps advance the simulated clock by exactly the
requested duration.  The concurrency busy-wait (`while active ≥ C`) is
modelled by its observable effects: the time it takes (`concWait`) and
the number of completions (`recordRequestComplete` calls, each of which
decrements the active counter, floored at zero) observed while waiting.
`history` is a ghost list of every dispatch timestamp ever recorded. -/

structure RLConfig where
  requestsPerMinute : ℕ
  concurrentRequests : ℕ
deriving DecidableEq, Repr

structure RLState where
  requestTimestamps : List ℚ
  activeRequests : ℕ
  now : ℚ
  history : List ℚ
deriving DecidableEq, Repr

/-- Environment of one `waitForRateLimit` call: clock advance since the
previous activity, busy-wait duration, and completions seen while
waiting. -/
structure RLCallEnv where
  delta : ℚ
  concWait : ℚ
  completions : ℕ
deriving DecidableEq, Repr

/-- `this.requestTimestamps.filter(ts => ts > cutoff)`. -/
def rlEvict (cutoff : ℚ) (ts : List ℚ) : List ℚ := ts.filter (fun t => decide (cutoff < t))

/-- The spacing wait: if the most recent recorded dispatch is closer than
`minTime`, sleep the difference and re-evict at the new clock. -/
def rlSpacing (minTime now : ℚ) (ts : List ℚ) : ℚ × List ℚ :=
  match ts.getLast? with
  | none => (now, ts)
  | some lastReq =>
    if now - lastReq < minTime then
      let nowAfter := now + (minTime - (now - lastReq))
      (nowAfter, rlEvict (nowAfter - 60000) ts)
    else (now, ts)

/-- The safety check: with `R` or more retained timestamps, wait until
the oldest leaves the window (computed from the stale `now` captured at
entry, plus a 100 ms buffer) and re-evict. -/
def rlSafety (r : ℕ) (nowOrig now2 : ℚ) (ts : List ℚ) : ℚ × List ℚ :=
  if r ≤ ts.length then
    let oldest := ts.headD 0
    let waitTime := 60000 - (nowOrig - oldest) + 100
    if 0 < waitTime then
      let nowAfter := now2 + waitTime
      (nowAfter, rlEvict (nowAfter - 60000) ts)
    else (now2, ts)
  else (now2, ts)

/-- Model of `waitForRateLimit`: evict, spacing wait, safety wait,
concurrency wait, then record the new dispatch timestamp and increment
the active counter before returning. -/
def waitForRateLimit (cfg : RLConfig) (env : RLCallEnv) (st : RLState) : RLState :=
  let now := st.now
  let ts1 := rlEvict (now - 60000) st.requestTimestamps
  let minTime : ℚ := 60000 / (cfg.requestsPerMinute : ℚ)
  let p2 := rlSpacing minTime now ts1
  let p3 := rlSafety cfg.requestsPerMinute now p2.1 p2.2
  let stamp := p3.1 + env.concWait
  { requestTimestamps := p3.2 ++ [stamp]
    activeRequests := st.activeRequests - env.completions + 1
    now := stamp
    history := st.history ++ [stamp] }

def rlInitState (t0 : ℚ) : RLState := ⟨[], 0, t0, []⟩

/-- A sequence of gated dispatches from a fresh client state. -/
def runRateLimiter (cfg : RLConfig) (t0 : ℚ) (envs : List RLCallEnv) : RLState :=
  envs.foldl (fun st env => waitForRateLimit cfg env { st with now := st.now + env.delta })
    (rlInitState t0)

/-- Number of recorded dispatch timestamps in the trailing 60-second
window ending at `t` (half-open, matching the source's `ts > now - 60000`
retention test). -/
def windowCount (history : List ℚ) (t : ℚ) : ℕ :=
  (history.filter (fun x => decide (t - 60000 < x ∧ x ≤ t))).length

/-! ### Specification-side predicates for claim C7 -/

/-- Claim C7's acceptance condition as written: regex match on the set
number and case-insensitive condition, with `n`/`u` also accepted. -/
def claimConditionAccepts (v : String) : Bool :=
  let n := jsToLower v
  decide (n = "new" ∨ n = "used" ∨ n = "n" ∨ n = "u")

def claimEntryAccepts (e : RawSetInput) : Bool :=
  setNumberSchemaTest e.setNumber && claimConditionAccepts e.condition

/-- Acceptance by the endpoint's actual schema: an entry contributes no
validation error. -/
def schemaEntryAccepts (e : RawSetInput) : Bool := setInputErrors e == []

/-- The well-formedness invariant the cache upholds during one batch:
every record is stored under the key built from its own fields, and every
record carries the batch currency.  (Only `setCachedData`, which stamps
the key from the record, ever writes.) -/
def CacheInv (cur : String) (m : CacheMap) : Prop :=
  ∀ kv ∈ m, kv.1 = getCacheKey kv.2.setNumber kv.2.condition kv.2.currency ∧
    kv.2.currency = cur

/-- Invariant of the rate-limiter state: recorded dispatch timestamps
are separated by at least the configured spacing `60000/R`, none lies in
the future, and the retained `requestTimestamps` list is the history
filtered at some cutoff at least one minute old. -/
def RLInv (cfg : RLConfig) (st : RLState) : Prop :=
  st.history.Pairwise (fun a b => a + 60000 / (cfg.requestsPerMinute : ℚ) ≤ b) ∧
  (∀ x ∈ st.history, x ≤ st.now) ∧
  ∃ c, c ≤ st.now - 60000 ∧
    st.requestTimestamps = st.history.filter (fun x => decide (c < x))

/-! ## Helper lemmas about the cache map -/

theorem mapGet_cons (kv : String × CachedPriceData) (m : CacheMap) (k : String) :
    mapGet (kv :: m) k = if kv.1 == k then some kv.2 else mapGet m k := by
  cases h : kv.1 == k <;> simp [mapGet, List.find?_cons, h]

theorem mapGet_not_mem (m : CacheMap) (k : String)
    (h : ∀ kv ∈ m, kv.1 ≠ k) : mapGet m k = none := by
  induction m with
  | nil => rfl
  | cons kv rest ih =>
    rw [mapGet_cons]
    have hk : kv.1 ≠ k := h kv (List.mem_cons_self kv rest)
    rw [if_neg (by simpa using hk)]
    exact ih (fun x hx => h x (List.mem_cons_of_mem kv hx))

theorem mapGet_subst (m : CacheMap) (k : String) (v : CachedPriceData)
    (hany : m.any (fun kv => kv.1 == k) = true) :
    mapGet (m.map (fun kv => if kv.1 == k then (k, v) else kv)) k = some v := by
  induction m with
  | nil => simp at hany
  | cons kv rest ih =>
    by_cases hk : (kv.1 == k) = true
    · rw [List.map_cons, if_pos hk, mapGet_cons, if_pos (by simp)]
    · rw [List.map_cons, if_neg hk, mapGet_cons, if_neg hk]
      refine ih ?_
      simp only [List.any_cons, Bool.or_eq_true] at hany
      rcases hany with h | h
      · exact absurd h hk
      · exact h

theorem mapGet_append_single (m : CacheMap) (k : String) (v : CachedPriceData)
    (hnone : ∀ kv ∈ m, (kv.1 == k) = false) :
    mapGet (m ++ [(k, v)]) k = some v := by
  induction m with
  | nil => rw [List.nil_append, mapGet_cons, if_pos (by simp)]
  | cons kv rest ih =>
    rw [List.cons_append, mapGet_cons, if_neg (by simp [hnone kv (List.mem_cons_self kv rest)])]
    exact ih (fun x hx => hnone x (List.mem_cons_of_mem kv hx))

theorem mapGet_mapSet_self (m : CacheMap) (k : String) (v : CachedPriceData) :
    mapGet (mapSet m k v) k = some v := by
  unfold mapSet
  by_cases hany : m.any (fun kv => kv.1 == k) = true
  · rw [if_pos hany]
    exact mapGet_subst m k v hany
  · rw [if_neg hany]
    refine mapGet_append_single m k v (fun kv hkv => ?_)
    simp only [List.any_eq_true, not_exists, not_and] at hany
    cases h : kv.1 == k
    · rfl
    · exact absurd h (by simpa using hany kv hkv)

/-- Keys of the map, for the uniqueness invariant every `Map` upholds. -/
theorem mapSet_keys_nodup (m : CacheMap) (k : String) (v : CachedPriceData)
    (h : (m.map (fun kv => kv.1)).Nodup) :
    ((mapSet m k v).map (fun kv => kv.1)).Nodup := by
  unfold mapSet
  by_cases hany : m.any (fun kv => kv.1 == k) = true
  · rw [if_pos hany, List.map_map]
    have heq : m.map ((fun kv => kv.1) ∘ fun kv => if kv.1 == k then (k, v) else kv)
        = m.map (fun kv => kv.1) := by
      refine List.map_congr_left (fun kv _ => ?_)
      by_cases hk : (kv.1 == k) = true
      · simp only [Function.comp_apply, if_pos hk]
        exact (eq_of_beq hk).symm
      · simp only [Function.comp_apply, if_neg hk]
    rw [heq]
    exact h
  · rw [if_neg hany, List.map_append, List.nodup_append]
    refine ⟨h, List.nodup_singleton k, ?_⟩
    rw [show ([(k, v)].map (fun kv => kv.1)) = [k] from rfl, List.disjoint_singleton]
    intro hmem
    obtain ⟨kv, hkv, hfst⟩ := List.mem_map.mp hmem
    simp only [List.any_eq_true, not_exists, not_and] at hany
    have hne : ¬(kv.1 == k) = true := by simpa using hany kv hkv
    exact hne (by rw [hfst]; exact beq_self_eq_true k)

theorem mapGet_mapDelete_self (m : CacheMap) (k : String)
    (h : (m.map (fun kv => kv.1)).Nodup) :
    mapGet (mapDelete m k) k = none := by
  unfold mapDelete
  induction m with
  | nil => rfl
  | cons kv rest ih =>
    simp only [List.map_cons, List.nodup_cons] at h
    by_cases hk : (kv.1 == k) = true
    · rw [@List.eraseP_cons_of_pos _ kv rest (fun x => x.1 == k) hk]
      refine mapGet_not_mem rest k (fun x hx hxk => ?_)
      refine h.1 ?_
      rw [eq_of_beq hk, ← hxk]
      exact List.mem_map.mpr ⟨x, hx, rfl⟩
    · rw [@List.eraseP_cons_of_neg _ kv rest (fun x => x.1 == k) hk, mapGet_cons, if_neg hk]
      exact ih h.2

/-! ## Claim C4 — cache get/put round trip, TTL expiry, no stale reads -/

/-- Claim C4: for a fixed key, `getCachedData` after `setCachedData`
returns the metrics that were put as long as the entry's age does not
exceed the TTL; once the age exceeds the TTL the read returns absent and
evicts the entry; and no call ever returns an entry older than the TTL. -/
theorem C4_cache_ttl_roundtrip
    (ttlHours : ℕ) (cache : CacheMap) (data : CachedPriceInput) (tPut tGet : Int)
    (hkeys : (cache.map (fun kv => kv.1)).Nodup) :
    (tGet - tPut ≤ cacheTtlMs ttlHours →
      (getCachedData ttlHours tGet (setCachedData tPut cache data)
          data.setNumber data.condition data.currency).1 =
        some ⟨data.setNumber, data.condition, data.currency, data.itemName, data.timesSold,
          data.avgSoldPrice, data.itemsForSale, data.avgSalePrice, tPut⟩)
    ∧ (cacheTtlMs ttlHours < tGet - tPut →
      (getCachedData ttlHours tGet (setCachedData tPut cache data)
          data.setNumber data.condition data.currency).1 = none ∧
      mapGet (getCachedData ttlHours tGet (setCachedData tPut cache data)
          data.setNumber data.condition data.currency).2
        (getCacheKey data.setNumber data.condition data.currency) = none)
    ∧ (∀ (now : Int) (c : CacheMap) (sn : String) (cond : AppCond) (cur : String)
        (e : CachedPriceData), (getCachedData ttlHours now c sn cond cur).1 = some e →
        now - e.cachedAt ≤ cacheTtlMs ttlHours) := by
  refine ⟨?_, ?_, ?_⟩
  · intro h
    simp only [getCachedData, setCachedData, mapGet_mapSet_self]
    rw [if_neg (not_lt.mpr h)]
  · intro h
    simp only [getCachedData, setCachedData, mapGet_mapSet_self]
    rw [if_pos h]
    exact ⟨rfl, mapGet_mapDelete_self _ _ (mapSet_keys_nodup cache _ _ hkeys)⟩
  · intro now c sn cond cur e he
    cases hm : mapGet c (getCacheKey sn cond cur) with
    | none => simp [getCachedData, hm] at he
    | some cached =>
      simp only [getCachedData, hm] at he
      by_cases hl : cacheTtlMs ttlHours < now - cached.cachedAt
      · rw [if_pos hl] at he
        exact absurd he (by simp)
      · rw [if_neg hl] at he
        simp only [Option.some.injEq] at he
        rw [← he]
        exact not_lt.mp hl

/-- Witness for C4 at a concrete put/get pair one millisecond apart. -/
theorem C4_cache_ttl_roundtrip_witness :
    ((1 : Int) - 0 ≤ cacheTtlMs 24) ∧
    (getCachedData 24 1 (setCachedData 0 []
        ⟨"75158-1", AppCond.new, "GBP", some "Castle", some 3, some "10.50", some 4, some "12.00"⟩)
      "75158-1" AppCond.new "GBP").1 =
      some ⟨"75158-1", AppCond.new, "GBP", some "Castle", some 3, some "10.50", some 4,
        some "12.00", 0⟩ :=
  ⟨by decide,
    (C4_cache_ttl_roundtrip 24 []
      ⟨"75158-1", AppCond.new, "GBP", some "Castle", some 3, some "10.50", some 4, some "12.00"⟩
      0 1 (by simp)).1 (by decide)⟩

/-! ## Claim C1 — 4xx handling in makeRequest

The source intends not to retry client errors (`// Client errors - don't
retry`), but the thrown error is caught by the surrounding catch-all,
which sleeps and continues the loop: a 404 is dispatched three times. -/

/-- Claim C1 (code bug evaluation): with the upstream returning 404 with
a parseable message on every attempt, `makeRequest` dispatches 3
attempts — not 1 — sleeping the caught-error backoff twice, and finally
throws the client-error message. -/
theorem C1_client_error_retried_three_times :
    makeRequest (fun _ => FetchOutcome.httpError 404 "Not Found" none
        (some "Resource not found") none none) =
      ⟨3, [⟨0, SleepCause.backoffCaught, 1000⟩, ⟨1, SleepCause.backoffCaught, 2000⟩],
        RequestOutcome.thrown "BrickLink API error: 404 - Resource not found"⟩ ∧
    (3 : ℕ) ≠ 1 :=
  ⟨rfl, by decide⟩

/-! ## Claim C6 — retry waits -/

/-- Counterexample to claim C6 as stated: after a 429 (whose sleep is the
60 s default), the following 5xx backoff is 2000 ms because the 429
advanced the attempt counter, while the claim's "does not advance the
exponential-backoff ladder" predicts 1000 ms for the first ladder sleep. -/
theorem C6_counterexample_429_advances_ladder :
    ladderSleeps (makeRequest (fun n =>
      if n = 0 then FetchOutcome.httpError 429 "Too Many Requests" none none none none
      else if n = 1 then FetchOutcome.httpError 503 "Service Unavailable" none none none none
      else FetchOutcome.success "ok")) = [2000] ∧
    claimBackoffLadder 1 = [1000] ∧ ([2000] : List ℕ) ≠ [1000] :=
  ⟨rfl, rfl, by decide⟩

theorem makeRequestAux_sleeps_spec (f : ℕ → FetchOutcome) (le : Option String)
    (attempt : ℕ) (fuel : ℕ) :
    (∀ e ∈ (makeRequestAux f le attempt fuel).sleeps,
        attempt ≤ e.attempt ∧
        (e.cause = SleepCause.retryAfter429 →
          ∃ stText ra mm em bm, f e.attempt = FetchOutcome.httpError 429 stText ra mm em bm
            ∧ e.ms = (ra.getD 60) * 1000) ∧
        (e.cause ≠ SleepCause.retryAfter429 → e.ms = backoffMs e.attempt)) ∧
    ((makeRequestAux f le attempt fuel).sleeps.map (fun e => e.attempt)).Pairwise (· < ·) ∧
    (makeRequestAux f le attempt fuel).attempts ≤ fuel := by
  induction fuel generalizing le attempt with
  | zero =>
    refine ⟨?_, ?_, ?_⟩ <;> simp [makeRequestAux]
  | succ fuel ih =>
    have hcons : ∀ (ev : SleepEvent) (rest : RequestTrace),
        ev.attempt = attempt →
        (∀ e ∈ rest.sleeps, attempt + 1 ≤ e.attempt ∧
          (e.cause = SleepCause.retryAfter429 →
            ∃ stText ra mm em bm, f e.attempt = FetchOutcome.httpError 429 stText ra mm em bm
              ∧ e.ms = (ra.getD 60) * 1000) ∧
          (e.cause ≠ SleepCause.retryAfter429 → e.ms = backoffMs e.attempt)) →
        ((rest.sleeps.map (fun e => e.attempt)).Pairwise (· < ·)) →
        ((ev.cause = SleepCause.retryAfter429 →
            ∃ stText ra mm em bm, f ev.attempt = FetchOutcome.httpError 429 stText ra mm em bm
              ∧ ev.ms = (ra.getD 60) * 1000) ∧
          (ev.cause ≠ SleepCause.retryAfter429 → ev.ms = backoffMs ev.attempt)) →
        (∀ e ∈ (ev :: rest.sleeps), attempt ≤ e.attempt ∧
          (e.cause = SleepCause.retryAfter429 →
            ∃ stText ra mm em bm, f e.attempt = FetchOutcome.httpError 429 stText ra mm em bm
              ∧ e.ms = (ra.getD 60) * 1000) ∧
          (e.cause ≠ SleepCause.retryAfter429 → e.ms = backoffMs e.attempt)) ∧
        (((ev :: rest.sleeps).map (fun e => e.attempt)).Pairwise (· < ·)) := by
      intro ev rest hev hrest hpw hself
      constructor
      · intro e he
        rcases List.mem_cons.mp he with h | h
        · subst h
          exact ⟨hev ▸ le_refl _, hself.1, hself.2⟩
        · obtain ⟨h1, h2, h3⟩ := hrest e h
          exact ⟨le_trans (Nat.le_succ attempt) h1, h2, h3⟩
      · rw [List.map_cons, List.pairwise_cons]
        refine ⟨?_, hpw⟩
        intro a ha
        obtain ⟨e, he, rfl⟩ := List.mem_map.mp ha
        have := (hrest e he).1
        omega
    rcases hf : f attempt with d | ⟨status, stText, ra, mm, em, bm⟩ | msg
    · simp only [makeRequestAux, hf]
      exact ⟨by simp, by simp, Nat.succ_le_succ (Nat.zero_le _)⟩
    · simp only [makeRequestAux, hf]
      by_cases h429 : status = 429
      · rw [if_pos h429]
        obtain ⟨ih1, ih2, ih3⟩ := ih le (attempt + 1)
        obtain ⟨hall, hpw⟩ := hcons ⟨attempt, SleepCause.retryAfter429, (ra.getD 60) * 1000⟩ _
          rfl ih1 ih2
          ⟨fun _ => ⟨stText, ra, mm, em, bm, by rw [hf, h429], rfl⟩, fun hc => absurd rfl hc⟩
        exact ⟨hall, hpw, Nat.succ_le_succ ih3⟩
      · rw [if_neg h429]
        by_cases h500 : 500 ≤ status
        · rw [if_pos h500]
          obtain ⟨ih1, ih2, ih3⟩ := ih le (attempt + 1)
          obtain ⟨hall, hpw⟩ := hcons ⟨attempt, SleepCause.backoff5xx, backoffMs attempt⟩ _
            rfl ih1 ih2 ⟨(fun hc => nomatch hc), (fun _ => rfl)⟩
          exact ⟨hall, hpw, Nat.succ_le_succ ih3⟩
        · rw [if_neg h500]
          obtain ⟨ih1, ih2, ih3⟩ :=
            ih (some (clientErrorMessage status stText mm em bm)) (attempt + 1)
          by_cases hlast : attempt < maxRetries - 1
          · rw [if_pos hlast]
            obtain ⟨hall, hpw⟩ := hcons ⟨attempt, SleepCause.backoffCaught, backoffMs attempt⟩ _
              rfl ih1 ih2 ⟨(fun hc => nomatch hc), (fun _ => rfl)⟩
            exact ⟨hall, hpw, Nat.succ_le_succ ih3⟩
          · rw [if_neg hlast]
            refine ⟨?_, ih2, Nat.succ_le_succ ih3⟩
            intro e he
            obtain ⟨h1, h2, h3⟩ := ih1 e he
            exact ⟨le_trans (Nat.le_succ attempt) h1, h2, h3⟩
    · simp only [makeRequestAux, hf]
      obtain ⟨ih1, ih2, ih3⟩ := ih (some msg) (attempt + 1)
      by_cases hlast : attempt < maxRetries - 1
      · rw [if_pos hlast]
        obtain ⟨hall, hpw⟩ := hcons ⟨attempt, SleepCause.backoffCaught, backoffMs attempt⟩ _
          rfl ih1 ih2 ⟨(fun hc => nomatch hc), (fun _ => rfl)⟩
        exact ⟨hall, hpw, Nat.succ_le_succ ih3⟩
      · rw [if_neg hlast]
        refine ⟨?_, ih2, Nat.succ_le_succ ih3⟩
        intro e he
        obtain ⟨h1, h2, h3⟩ := ih1 e he
        exact ⟨le_trans (Nat.le_succ attempt) h1, h2, h3⟩

/-- Claim C6 amended: within one `makeRequest` call (max 3 attempts), a
429 sleeps `Retry-After`·1000 ms (default 60 s) and counts toward the
attempt limit, and every other retry sleep is `min(1000·2^attempt,
10000)` ms where `attempt` is the overall zero-based attempt index —
an index that 429 retries also advance; consequently the ladder sleeps
are non-decreasing and capped at 10 s. -/
theorem C6_retry_wait_ladder (f : ℕ → FetchOutcome) :
    (∀ e ∈ (makeRequest f).sleeps,
        (e.cause = SleepCause.retryAfter429 →
          ∃ stText ra mm em bm, f e.attempt = FetchOutcome.httpError 429 stText ra mm em bm
            ∧ e.ms = (ra.getD 60) * 1000) ∧
        (e.cause ≠ SleepCause.retryAfter429 → e.ms = backoffMs e.attempt)) ∧
    (ladderSleeps (makeRequest f)).Pairwise (· ≤ ·) ∧
    (∀ m ∈ ladderSleeps (makeRequest f), m ≤ 10000) ∧
    (makeRequest f).attempts ≤ 3 := by
  obtain ⟨h1, h2, h3⟩ := makeRequestAux_sleeps_spec f none 0 maxRetries
  have hmono : ∀ {a b : ℕ}, a ≤ b → backoffMs a ≤ backoffMs b := by
    intro a b h
    unfold backoffMs
    exact min_le_min (Nat.mul_le_mul_left 1000 (Nat.pow_le_pow_right (by norm_num) h))
      (le_refl _)
  refine ⟨fun e he => ⟨(h1 e he).2.1, (h1 e he).2.2⟩, ?_, ?_, h3⟩
  · unfold ladderSleeps
    have hpw : (makeRequest f).sleeps.Pairwise (fun a b => a.attempt < b.attempt) :=
      List.pairwise_map.mp h2
    have hpf : ((makeRequest f).sleeps.filter
        (fun e => decide (e.cause ≠ SleepCause.retryAfter429))).Pairwise
          (fun a b => a.attempt < b.attempt) :=
      hpw.sublist (List.filter_sublist _)
    refine List.pairwise_map.mpr ?_
    refine List.Pairwise.imp_of_mem ?_ hpf
    intro a b ha hb hab
    have hca : a.cause ≠ SleepCause.retryAfter429 := by
      have := (List.mem_filter.mp ha).2
      simpa using this
    have hcb : b.cause ≠ SleepCause.retryAfter429 := by
      have := (List.mem_filter.mp hb).2
      simpa using this
    rw [(h1 a (List.mem_of_mem_filter ha)).2.2 hca,
      (h1 b (List.mem_of_mem_filter hb)).2.2 hcb]
    exact hmono (le_of_lt hab)
  · intro m hm
    obtain ⟨e, he, rfl⟩ := List.mem_map.mp hm
    rw [(h1 e (List.mem_of_mem_filter he)).2.2 (by simpa using (List.mem_filter.mp he).2)]
    exact min_le_right _ _

/-- Witness for C6 (amended) at the 429-then-503-then-200 upstream. -/
theorem C6_retry_wait_ladder_witness :
    (ladderSleeps (makeRequest (fun n =>
      if n = 0 then FetchOutcome.httpError 429 "Too Many Requests" none none none none
      else if n = 1 then FetchOutcome.httpError 503 "Service Unavailable" none none none none
      else FetchOutcome.success "ok"))).Pairwise (· ≤ ·) ∧
    (2000 : ℕ) ≤ 10000 :=
  ⟨(C6_retry_wait_ladder (fun n =>
      if n = 0 then FetchOutcome.httpError 429 "Too Many Requests" none none none none
      else if n = 1 then FetchOutcome.httpError 503 "Service Unavailable" none none none none
      else FetchOutcome.success "ok")).2.1,
    (C6_retry_wait_ladder (fun n =>
      if n = 0 then FetchOutcome.httpError 429 "Too Many Requests" none none none none
      else if n = 1 then FetchOutcome.httpError 503 "Service Unavailable" none none none none
      else FetchOutcome.success "ok")).2.2.1 2000 (by decide)⟩

/-! ## Claims C2 and C10 — lookup-service behaviour -/

theorem jsQtyOrNull_ne_some_zero (g : Option PriceGuideData) : jsQtyOrNull g ≠ some 0 := by
  cases g with
  | none => simp [jsQtyOrNull]
  | some d =>
    simp only [jsQtyOrNull]
    by_cases h : d.unit_quantity = 0
    · rw [if_pos h]
      simp
    · rw [if_neg h]
      simpa using h

theorem jsQtyOrNull_pos (g : Option PriceGuideData)
    (h : ∀ x, g = some x → 0 ≤ x.unit_quantity) :
    ∀ k, jsQtyOrNull g = some k → 0 < k := by
  intro k hk
  cases g with
  | none => simp [jsQtyOrNull] at hk
  | some d =>
    simp only [jsQtyOrNull] at hk
    by_cases hz : d.unit_quantity = 0
    · rw [if_pos hz] at hk
      simp at hk
    · rw [if_neg hz] at hk
      simp only [Option.some.injEq] at hk
      subst hk
      exact lt_of_le_of_ne (h d rfl) (Ne.symm hz)

/-- On a cache miss the non-forced path equals the fresh path. -/
theorem fetchSetPriceData_miss (ttlHours : ℕ) (now : Int) (cache : CacheMap)
    (sn : String) (cond : AppCond) (cur : String)
    (sold stock : Option PriceGuideData) (item : Option ItemInfoData)
    (hmiss : mapGet cache (getCacheKey sn cond cur) = none) :
    fetchSetPriceData ttlHours now cache sn cond cur false sold stock item =
      fetchSetPriceFresh now cache sn cond cur sold stock item := by
  simp [fetchSetPriceData, getCachedData, hmiss]

/-- Every path of `fetchSetPriceData` reports success: the per-sub-call
catches leave nothing for the outer catch. -/
theorem fetchSetPriceData_status_success (ttlHours : ℕ) (now : Int) (cache : CacheMap)
    (sn : String) (cond : AppCond) (cur : String) (fr : Bool)
    (sold stock : Option PriceGuideData) (item : Option ItemInfoData) :
    (fetchSetPriceData ttlHours now cache sn cond cur fr sold stock item).1.status =
      LookupStatus.success := by
  cases fr with
  | true => rfl
  | false =>
    rcases hg : getCachedData ttlHours now cache sn cond cur with ⟨o, c2⟩
    cases o <;> simp [fetchSetPriceData, hg, fetchSetPriceFresh, buildFreshResult]

theorem processSetsGo_length (ttlHours : ℕ) (now : Int) (outs : ℕ → SubCallData)
    (cur : String) (fr : Bool) :
    ∀ (sets : List SetEntry) (i : ℕ) (cache : CacheMap),
      (processSetsGo ttlHours now outs cur fr i cache sets).1.length = sets.length := by
  intro sets
  induction sets with
  | nil => intro i cache; rfl
  | cons s rest ih =>
    intro i cache
    simp only [processSetsGo, List.length_cons]
    rw [ih]

theorem processSetsGo_statuses (ttlHours : ℕ) (now : Int) (outs : ℕ → SubCallData)
    (cur : String) (fr : Bool) :
    ∀ (sets : List SetEntry) (i : ℕ) (cache : CacheMap),
      (processSetsGo ttlHours now outs cur fr i cache sets).1.map (fun r => r.status) =
        List.replicate sets.length LookupStatus.success := by
  intro sets
  induction sets with
  | nil => intro i cache; rfl
  | cons s rest ih =>
    intro i cache
    simp only [processSetsGo, List.map_cons, List.length_cons, List.replicate_succ]
    rw [ih, fetchSetPriceData_status_success]

/-- A fresh write into the empty cache holds exactly its own key. -/
theorem mapGet_setCachedData_empty_ne (now : Int) (d : CachedPriceInput) (k : String)
    (hne : k ≠ getCacheKey d.setNumber d.condition d.currency) :
    mapGet (setCachedData now [] d) k = none := by
  simp only [setCachedData, mapSet, List.any_nil, Bool.false_eq_true, if_false,
    List.nil_append, mapGet_cons]
  rw [if_neg (by simpa using (Ne.symm hne))]
  rfl

/-- Counterexample to claim C2 as stated: in a batch of 3 items where
every sub-call of item 2 fails (each converted to null by its own
`.catch`), item 2's result still has status `success` — the outer catch
that would produce status `error` is never reached — so the claimed
`[success, error, success]` status list is wrong. -/
theorem C2_counterexample_all_subcalls_failed_is_success :
    ((processSets 24 0 (fun i => if i = 1 then ⟨none, none, none⟩
        else ⟨some ⟨5, "10.00"⟩, some ⟨7, "12.00"⟩, some ⟨none⟩⟩) []
      [⟨"1111-1", AppCond.new⟩, ⟨"2222-1", AppCond.new⟩, ⟨"3333-1", AppCond.new⟩]
      "GBP" false).1.map (fun r => r.status)) =
      [LookupStatus.success, LookupStatus.success, LookupStatus.success] ∧
    [LookupStatus.success, LookupStatus.success, LookupStatus.success] ≠
      [LookupStatus.success, LookupStatus.error, LookupStatus.success] :=
  ⟨rfl, by decide⟩

/-- Claim C2 amended: for a batch of 3 items where every sub-call of
item 2 fails, the batch returns 3 results in order and does not throw,
but item 2's result has status `success` with every metric field null
and no error message (the failure is contained by nulling the metrics,
not by an error status). -/
theorem C2_failed_item_contained_as_null_success
    (ttlHours : ℕ) (now : Int) (s1 s2 s3 : SetEntry) (cur : String) (outs : ℕ → SubCallData)
    (h2 : outs 1 = ⟨none, none, none⟩)
    (hkey : getCacheKey s2.setNumber s2.condition cur ≠ getCacheKey s1.setNumber s1.condition cur) :
    (processSets ttlHours now outs [] [s1, s2, s3] cur false).1.length = 3 ∧
    (processSets ttlHours now outs [] [s1, s2, s3] cur false).1.map (fun r => r.status) =
      [LookupStatus.success, LookupStatus.success, LookupStatus.success] ∧
    (processSets ttlHours now outs [] [s1, s2, s3] cur false).1.get? 1 =
      some (buildFreshResult s2.setNumber s2.condition cur now none none none) ∧
    (buildFreshResult s2.setNumber s2.condition cur now none none none).timesSold = none ∧
    (buildFreshResult s2.setNumber s2.condition cur now none none none).avgSoldPrice = none ∧
    (buildFreshResult s2.setNumber s2.condition cur now none none none).itemsForSale = none ∧
    (buildFreshResult s2.setNumber s2.condition cur now none none none).avgSalePrice = none ∧
    (buildFreshResult s2.setNumber s2.condition cur now none none none).errorMessage = none ∧
    (buildFreshResult s2.setNumber s2.condition cur now none none none).status =
      LookupStatus.success := by
  have hmiss1 : mapGet ([] : CacheMap) (getCacheKey s1.setNumber s1.condition cur) = none := rfl
  have hf1 := fetchSetPriceData_miss ttlHours now [] s1.setNumber s1.condition cur
    (outs 0).sold (outs 0).stock (outs 0).item hmiss1
  have hmiss2 : mapGet (fetchSetPriceFresh now [] s1.setNumber s1.condition cur
      (outs 0).sold (outs 0).stock (outs 0).item).2
      (getCacheKey s2.setNumber s2.condition cur) = none := by
    exact mapGet_setCachedData_empty_ne now _ _ hkey
  have hf2 := fetchSetPriceData_miss ttlHours now
    (fetchSetPriceFresh now [] s1.setNumber s1.condition cur
      (outs 0).sold (outs 0).stock (outs 0).item).2
    s2.setNumber s2.condition cur (outs 1).sold (outs 1).stock (outs 1).item hmiss2
  refine ⟨?_, ?_, ?_, rfl, rfl, rfl, rfl, rfl, rfl⟩
  · exact processSetsGo_length ttlHours now outs cur false [s1, s2, s3] 0 []
  · show (processSetsGo ttlHours now outs cur false 0 [] [s1, s2, s3]).1.map
        (fun r => r.status) = _
    rw [processSetsGo_statuses ttlHours now outs cur false [s1, s2, s3] 0 []]
    rfl
  · show (processSetsGo ttlHours now outs cur false 0 [] [s1, s2, s3]).1.get? 1 = _
    simp only [processSetsGo]
    rw [hf1]
    simp only [List.get?]
    rw [hf2, h2]
    rfl

/-- Witness for C2 (amended) at three concrete distinct items. -/
theorem C2_failed_item_contained_witness :
    ((fun i => if i = 1 then (⟨none, none, none⟩ : SubCallData)
        else ⟨some ⟨5, "10.00"⟩, some ⟨7, "12.00"⟩, some ⟨none⟩⟩) 1 =
      (⟨none, none, none⟩ : SubCallData)) ∧
    (processSets 24 0 (fun i => if i = 1 then ⟨none, none, none⟩
        else ⟨some ⟨5, "10.00"⟩, some ⟨7, "12.00"⟩, some ⟨none⟩⟩) []
      [⟨"1111-1", AppCond.new⟩, ⟨"2222-1", AppCond.new⟩, ⟨"3333-1", AppCond.new⟩]
      "GBP" false).1.get? 1 =
      some (buildFreshResult "2222-1" AppCond.new "GBP" 0 none none none) :=
  ⟨rfl,
    (C2_failed_item_contained_as_null_success 24 0
      ⟨"1111-1", AppCond.new⟩ ⟨"2222-1", AppCond.new⟩ ⟨"3333-1", AppCond.new⟩ "GBP"
      (fun i => if i = 1 then ⟨none, none, none⟩
        else ⟨some ⟨5, "10.00"⟩, some ⟨7, "12.00"⟩, some ⟨none⟩⟩)
      rfl (by decide)).2.2.1⟩

/-- Claim C10: in the freshly assembled result and in the cache record
written by `fetchSetPriceData`, the `timesSold` and `itemsForSale`
fields are never `some 0` — a zero upstream `unit_quantity` is coerced
to null by the falsy-or — and, when the upstream counts are
non-negative, any present count is strictly positive. -/
theorem C10_counts_never_zero
    (ttlHours : ℕ) (now : Int) (cache : CacheMap) (sn : String) (cond : AppCond) (cur : String)
    (sold stock : Option PriceGuideData) (item : Option ItemInfoData)
    (hs : ∀ g, sold = some g → 0 ≤ g.unit_quantity)
    (ht : ∀ g, stock = some g → 0 ≤ g.unit_quantity) :
    ((fetchSetPriceData ttlHours now cache sn cond cur true sold stock item).1.timesSold ≠
        some 0) ∧
    (∀ k, (fetchSetPriceData ttlHours now cache sn cond cur true sold stock item).1.timesSold =
        some k → 0 < k) ∧
    ((fetchSetPriceData ttlHours now cache sn cond cur true sold stock item).1.itemsForSale ≠
        some 0) ∧
    (∀ k, (fetchSetPriceData ttlHours now cache sn cond cur true sold stock item).1.itemsForSale =
        some k → 0 < k) ∧
    (∀ e, mapGet (fetchSetPriceData ttlHours now cache sn cond cur true sold stock item).2
        (getCacheKey sn cond cur) = some e →
      e.timesSold ≠ some 0 ∧ (∀ k, e.timesSold = some k → 0 < k) ∧
      e.itemsForSale ≠ some 0 ∧ (∀ k, e.itemsForSale = some k → 0 < k)) := by
  refine ⟨jsQtyOrNull_ne_some_zero sold, jsQtyOrNull_pos sold hs,
    jsQtyOrNull_ne_some_zero stock, jsQtyOrNull_pos stock ht, ?_⟩
  intro e he
  have hset : mapGet (fetchSetPriceData ttlHours now cache sn cond cur true sold stock item).2
      (getCacheKey sn cond cur) =
      some ⟨sn, cond, cur, decodeHtmlEntities (item.bind (fun i => i.name)),
        jsQtyOrNull sold, jsPriceOrNull sold, jsQtyOrNull stock, jsPriceOrNull stock, now⟩ :=
    mapGet_mapSet_self cache _ _
  rw [hset] at he
  simp only [Option.some.injEq] at he
  rw [← he]
  exact ⟨jsQtyOrNull_ne_some_zero sold, jsQtyOrNull_pos sold hs,
    jsQtyOrNull_ne_some_zero stock, jsQtyOrNull_pos stock ht⟩

/-- Witness for C10: a sold guide with `unit_quantity = 0` is coerced to
null in the assembled result. -/
theorem C10_counts_never_zero_witness :
    (∀ g, (some (⟨0, "1.00"⟩ : PriceGuideData)) = some g → 0 ≤ g.unit_quantity) ∧
    (fetchSetPriceData 24 0 [] "1111-1" AppCond.new "GBP" true
      (some ⟨0, "1.00"⟩) (some ⟨5, "2.00"⟩) none).1.timesSold ≠ some 0 :=
  ⟨fun g h => by cases h; decide,
    (C10_counts_never_zero 24 0 [] "1111-1" AppCond.new "GBP"
      (some ⟨0, "1.00"⟩) (some ⟨5, "2.00"⟩) none
      (fun g h => by cases h; decide) (fun g h => by cases h; decide)).1⟩

/-! ## Claims C9 and C7 — endpoint validation -/

theorem deduplicateSetsGo_sublist (seen : List String) (sets : List SetEntry) :
    List.Sublist (deduplicateSetsGo seen sets) sets := by
  induction sets generalizing seen with
  | nil => exact List.Sublist.refl []
  | cons s rest ih =>
    simp only [deduplicateSetsGo]
    by_cases h : dedupKey s ∈ seen
    · rw [if_pos h]
      exact List.Sublist.cons s (ih seen)
    · rw [if_neg h]
      exact List.Sublist.cons₂ s (ih (dedupKey s :: seen))

/-- Claim C9: a 601-element batch is rejected by schema validation (with
the max-length message) before any processing; an empty batch is
rejected with the distinct min-length message; a 600-element batch of
valid entries passes validation and reaches processing. -/
theorem C9_batch_size_limits :
    (∀ (sets : List RawSetInput) (fr : Bool), sets.length = 601 →
      ∃ d, routePOST sets fr = RouteResult.validationError d ∧ msgMaxSets ∈ d) ∧
    (∀ fr : Bool, ∃ d, routePOST [] fr = RouteResult.validationError d ∧ msgMinSets ∈ d ∧
      msgMaxSets ∉ d) ∧
    msgMinSets ≠ msgMaxSets ∧
    (∀ (sets : List RawSetInput) (fr : Bool), sets.length = 600 →
      (∀ e ∈ sets, setInputErrors e = []) →
      ∃ n ps, routePOST sets fr = RouteResult.completed n ps) := by
  refine ⟨?_, ?_, by decide, ?_⟩
  · intro sets fr hlen
    have herrs : lookupJobRequestErrors sets = msgMaxSets :: sets.flatMap setInputErrors := by
      unfold lookupJobRequestErrors
      rw [hlen]
      norm_num
    refine ⟨msgMaxSets :: sets.flatMap setInputErrors, ?_, List.mem_cons_self _ _⟩
    simp [routePOST, herrs]
  · intro fr
    refine ⟨[msgMinSets], ?_, List.mem_cons_self _ _, by decide⟩
    simp [routePOST, lookupJobRequestErrors]
  · intro sets fr hlen hall
    have herrs : lookupJobRequestErrors sets = [] := by
      unfold lookupJobRequestErrors
      rw [hlen, List.flatMap_eq_nil_iff.mpr hall]
      norm_num
    have hlenle : (deduplicateSets (parseValidatedSets sets)).length ≤ 600 := by
      calc (deduplicateSets (parseValidatedSets sets)).length
          ≤ (parseValidatedSets sets).length :=
            (deduplicateSetsGo_sublist [] (parseValidatedSets sets)).length_le
        _ ≤ sets.length := List.length_filterMap_le _ _
        _ = 600 := hlen
    have hne : (deduplicateSets (parseValidatedSets sets)).length ≠ 0 := by
      cases sets with
      | nil => simp at hlen
      | cons e rest =>
        have he : setInputErrors e = [] := hall e (List.mem_cons_self e rest)
        have hc : (conditionEnumParse e.condition).isSome = true := by
          by_contra hc
          simp [setInputErrors, hc] at he
        obtain ⟨c, hc'⟩ := Option.isSome_iff_exists.mp hc
        have hp : parseValidatedSets (e :: rest) =
            ⟨e.setNumber, c⟩ :: parseValidatedSets rest := by
          simp [parseValidatedSets, hc']
        rw [hp]
        simp [deduplicateSets, deduplicateSetsGo]
    refine ⟨(deduplicateSets (parseValidatedSets sets)).length,
      deduplicateSets (parseValidatedSets sets), ?_⟩
    simp only [routePOST, herrs, List.isEmpty_nil, if_true]
    rw [if_neg hne, if_neg (by omega)]

/-- Witness for C9 at concrete batches of 601 and 600 entries. -/
theorem C9_batch_size_limits_witness :
    (List.replicate 601 (⟨"75158", "new"⟩ : RawSetInput)).length = 601 ∧
    (∃ d, routePOST (List.replicate 601 ⟨"75158", "new"⟩) false =
      RouteResult.validationError d ∧ msgMaxSets ∈ d) ∧
    (List.replicate 600 (⟨"75158", "new"⟩ : RawSetInput)).length = 600 ∧
    (∃ n ps, routePOST (List.replicate 600 ⟨"75158", "new"⟩) false =
      RouteResult.completed n ps) :=
  ⟨List.length_replicate 601 _, C9_batch_size_limits.1 _ false (List.length_replicate 601 _),
    List.length_replicate 600 _, C9_batch_size_limits.2.2.2 _ false (List.length_replicate 600 _)
      (fun e he => by rw [List.eq_of_mem_replicate he]; decide)⟩

/-- Counterexample to claim C7 as stated: the JSON entry with setNumber
`75158` and condition `N` satisfies the claim's acceptance condition
(case-insensitive with N/U), but the endpoint schema rejects it — the
zod enum compares exactly against `new`/`used`.  Moreover an accepted
dash-less setNumber is processed verbatim: the route never appends
`-1`. -/
theorem C7_counterexample_endpoint_stricter :
    claimEntryAccepts ⟨"75158", "N"⟩ = true ∧
    schemaEntryAccepts ⟨"75158", "N"⟩ = false ∧
    routePOST [⟨"75158", "new"⟩] false =
      RouteResult.completed 1 [⟨"75158", AppCond.new⟩] ∧
    "75158" ≠ "75158-1" :=
  ⟨by decide, by decide, by decide, by decide⟩

/-- Claim C7 amended: the endpoint accepts an entry exactly when its
trimmed setNumber matches `^\d{4,6}(-\d{1,2})?$` and its condition is
exactly `new` or `used` (case-sensitive, no N/U); accepted setNumbers
reach processing verbatim — appending `-1` is done only by the
client-side `normalizeSetNumber`, which does append `-1` to a trimmed
bare 4-6 digit number. -/
theorem C7_endpoint_validation (e : RawSetInput) :
    (schemaEntryAccepts e = true ↔
      (matchSetNumberChars (jsTrim e.setNumber).data = true ∧
        (e.condition = "new" ∨ e.condition = "used"))) ∧
    (∀ (sets : List RawSetInput) (fr : Bool) (n : ℕ) (ps : List SetEntry),
      routePOST sets fr = RouteResult.completed n ps →
      ∀ p ∈ ps, ∃ raw ∈ sets, p.setNumber = raw.setNumber) ∧
    (∀ s : String, (jsTrim s).data.contains '-' = false →
      (jsTrim s).data.all isAsciiDigit = true →
      4 ≤ (jsTrim s).data.length → (jsTrim s).data.length ≤ 6 →
      normalizeSetNumber s = jsTrim s ++ "-1") := by
  refine ⟨?_, ?_, ?_⟩
  · unfold schemaEntryAccepts setInputErrors setNumberSchemaTest conditionEnumParse
    by_cases h1 : matchSetNumberChars (jsTrim e.setNumber).data
    · by_cases h2 : e.condition = "new"
      · simp [h1, h2]
      · by_cases h3 : e.condition = "used" <;> simp [h1, h2, h3]
    · by_cases h2 : e.condition = "new"
      · simp [h1, h2]
      · by_cases h3 : e.condition = "used" <;> simp [h1, h2, h3]
  · intro sets fr n ps hroute p hp
    simp only [routePOST] at hroute
    by_cases herrs : (lookupJobRequestErrors sets).isEmpty
    · rw [if_pos herrs] at hroute
      by_cases h0 : (deduplicateSets (parseValidatedSets sets)).length = 0
      · rw [if_pos h0] at hroute
        exact absurd hroute (by simp)
      · rw [if_neg h0] at hroute
        by_cases h6 : 600 < (deduplicateSets (parseValidatedSets sets)).length
        · rw [if_pos h6] at hroute
          exact absurd hroute (by simp)
        · rw [if_neg h6] at hroute
          injection hroute with hn hps
          subst hps
          have hmem : p ∈ parseValidatedSets sets :=
            List.Sublist.mem hp (deduplicateSetsGo_sublist [] _)
          obtain ⟨raw, hraw, heq⟩ := List.mem_filterMap.mp hmem
          obtain ⟨c, _, hpc⟩ := Option.map_eq_some'.mp heq
          exact ⟨raw, hraw, by rw [← hpc]⟩
    · rw [if_neg herrs] at hroute
      exact absurd hroute (by simp)
  · intro s hdash hdigits h4 h6
    unfold normalizeSetNumber
    rw [if_neg (by rw [hdash]; exact Bool.false_ne_true), if_pos]
    simp only [hdigits, Bool.true_and]
    exact decide_eq_true ⟨h4, h6⟩

/-- Witness for C7 (amended) at a concrete accepted entry. -/
theorem C7_endpoint_validation_witness :
    (matchSetNumberChars (jsTrim "75158").data = true ∧
      (("new" : String) = "new" ∨ ("new" : String) = "used")) ∧
    schemaEntryAccepts ⟨"75158", "new"⟩ = true ∧
    normalizeSetNumber "75158" = jsTrim "75158" ++ "-1" :=
  ⟨⟨by decide, Or.inl rfl⟩,
    (C7_endpoint_validation ⟨"75158", "new"⟩).1.mpr ⟨by decide, Or.inl rfl⟩,
    (C7_endpoint_validation ⟨"75158", "new"⟩).2.2 "75158"
      (by decide) (by decide) (by decide) (by decide)⟩

/-! ## Claim C5 — deduplication and result order -/

theorem strAppend_cancel_right {a b t : String} (h : a ++ t = b ++ t) : a = b := by
  have h' := congrArg String.data h
  rw [String.data_append, String.data_append] at h'
  exact String.ext (List.append_cancel_right h')

/-- The seen-set keys of `deduplicateSets` (and the cache keys) are
built as `prefix ++ mid ++ condStr c`; because `new` and `used` end in
distinct characters and neither is a suffix of the other for a common
prefix shape, the key determines both components. -/
theorem appendCondStr_inj (s1 s2 mid : String) (c1 c2 : AppCond)
    (h : s1 ++ mid ++ condStr c1 = s2 ++ mid ++ condStr c2) : s1 = s2 ∧ c1 = c2 := by
  have hlast := congrArg (fun s : String => s.data.getLast?) h
  simp only [String.data_append, List.getLast?_append] at hlast
  cases c1 <;> cases c2
  · exact ⟨strAppend_cancel_right (strAppend_cancel_right h), rfl⟩
  · exact absurd (show (some 'w' : Option Char) = some 'd' from hlast) (by decide)
  · exact absurd (show (some 'd' : Option Char) = some 'w' from hlast) (by decide)
  · exact ⟨strAppend_cancel_right (strAppend_cancel_right h), rfl⟩

theorem dedupKey_inj {t s : SetEntry} (h : dedupKey t = dedupKey s) : t = s := by
  cases t with
  | mk a b =>
    cases s with
    | mk c d =>
      obtain ⟨h1, h2⟩ := appendCondStr_inj a c "-" b d h
      rw [h1, h2]

theorem getCacheKey_inj_cur {a b : String} {c1 c2 : AppCond} {cur : String}
    (h : getCacheKey a c1 cur = getCacheKey b c2 cur) : a = b ∧ c1 = c2 := by
  have h1 : a ++ ":" ++ condStr c1 ++ ":" = b ++ ":" ++ condStr c2 ++ ":" :=
    strAppend_cancel_right h
  have h2 : a ++ ":" ++ condStr c1 = b ++ ":" ++ condStr c2 := strAppend_cancel_right h1
  exact appendCondStr_inj a b ":" c1 c2 h2

theorem deduplicateSetsGo_eq_keepFirst (sets : List SetEntry) : ∀ seen : List String,
    deduplicateSetsGo seen sets =
      keepFirstOccurrences (sets.filter (fun t => decide (dedupKey t ∉ seen))) := by
  induction sets with
  | nil => intro seen; simp [deduplicateSetsGo, keepFirstOccurrences]
  | cons s rest ih =>
    intro seen
    by_cases h : dedupKey s ∈ seen
    · simp only [deduplicateSetsGo, if_pos h, List.filter_cons]
      rw [if_neg (by simp [h]), ih seen]
    · simp only [deduplicateSetsGo, if_neg h, List.filter_cons]
      rw [if_pos (by simp [h])]
      simp only [keepFirstOccurrences]
      congr 1
      rw [ih (dedupKey s :: seen), List.filter_filter]
      congr 1
      refine List.filter_congr (fun u _ => ?_)
      by_cases h1 : dedupKey u = dedupKey s
      · have hus : u = s := dedupKey_inj h1
        subst hus
        simp [h1]
      · have hus : u ≠ s := fun he => h1 (by rw [he])
        simp [List.mem_cons, h1, hus]

theorem mem_mapSet {m : CacheMap} {k : String} {v : CachedPriceData}
    {kv : String × CachedPriceData} (h : kv ∈ mapSet m k v) : kv ∈ m ∨ kv = (k, v) := by
  unfold mapSet at h
  by_cases hany : m.any (fun kv => kv.1 == k) = true
  · rw [if_pos hany] at h
    obtain ⟨kv0, hkv0, heq⟩ := List.mem_map.mp h
    by_cases hk : (kv0.1 == k) = true
    · rw [if_pos hk] at heq
      right
      exact heq.symm
    · rw [if_neg hk] at heq
      left
      exact heq ▸ hkv0
  · rw [if_neg hany] at h
    rcases List.mem_append.mp h with h | h
    · left
      exact h
    · right
      simpa using h

theorem cacheInv_getCachedData (cur : String) (t : ℕ) (now : Int) (m : CacheMap)
    (sn : String) (cond : AppCond) (cr : String) (h : CacheInv cur m) :
    CacheInv cur (getCachedData t now m sn cond cr).2 := by
  cases hm : mapGet m (getCacheKey sn cond cr) with
  | none =>
    simp only [getCachedData, hm]
    exact h
  | some c0 =>
    simp only [getCachedData, hm]
    by_cases hexp : cacheTtlMs t < now - c0.cachedAt
    · rw [if_pos hexp]
      intro kv hkv
      exact h kv (List.Sublist.mem hkv (List.eraseP_sublist m))
    · rw [if_neg hexp]
      exact h

theorem cacheInv_setCachedData (cur : String) (now : Int) (m : CacheMap)
    (d : CachedPriceInput) (h : CacheInv cur m) (hd : d.currency = cur) :
    CacheInv cur (setCachedData now m d) := by
  intro kv hkv
  rcases mem_mapSet hkv with hm | he
  · exact h kv hm
  · subst he
    exact ⟨rfl, hd⟩

/-- Every `fetchSetPriceData` result mirrors the requested setNumber and
condition (the cache-hit path does so because cache keys are injective
per currency), and the cache invariant is preserved. -/
theorem fetchSetPriceData_mirror (t : ℕ) (now : Int) (cache : CacheMap)
    (sn : String) (cond : AppCond) (cur : String) (fr : Bool)
    (so st : Option PriceGuideData) (it : Option ItemInfoData)
    (hinv : CacheInv cur cache) :
    (fetchSetPriceData t now cache sn cond cur fr so st it).1.setNumber = sn ∧
    (fetchSetPriceData t now cache sn cond cur fr so st it).1.condition = cond ∧
    CacheInv cur (fetchSetPriceData t now cache sn cond cur fr so st it).2 := by
  cases fr with
  | true =>
    exact ⟨rfl, rfl,
      cacheInv_setCachedData cur now cache (freshCacheInput sn cond cur so st it) hinv rfl⟩
  | false =>
    rcases hg : getCachedData t now cache sn cond cur with ⟨o, c2⟩
    have hc2 : CacheInv cur c2 := by
      have hx := cacheInv_getCachedData cur t now cache sn cond cur hinv
      rwa [hg] at hx
    cases o with
    | none =>
      simp only [fetchSetPriceData, Bool.false_eq_true, if_false, hg]
      exact ⟨rfl, rfl,
        cacheInv_setCachedData cur now c2 (freshCacheInput sn cond cur so st it) hc2 rfl⟩
    | some cached =>
      have hmc : mapGet cache (getCacheKey sn cond cur) = some cached ∧ c2 = cache := by
        rcases hm0 : mapGet cache (getCacheKey sn cond cur) with _ | c0
        · simp [getCachedData, hm0] at hg
        · by_cases hexp : cacheTtlMs t < now - c0.cachedAt
          · simp [getCachedData, hm0, hexp] at hg
          · simp only [getCachedData, hm0, if_neg hexp, Prod.mk.injEq,
              Option.some.injEq] at hg
            exact ⟨congrArg some hg.1, hg.2.symm⟩
      obtain ⟨hmc1, hc2eq⟩ := hmc
      obtain ⟨kv, hfind, hsnd⟩ := Option.map_eq_some'.mp hmc1
      have hp := List.find?_some hfind
      have hmem : kv ∈ cache := List.mem_of_find?_eq_some hfind
      obtain ⟨hk1, hk2⟩ := hinv kv hmem
      rw [hsnd] at hk1 hk2
      have hkeq : getCacheKey sn cond cur =
          getCacheKey cached.setNumber cached.condition cur :=
        ((eq_of_beq hp).symm.trans hk1).trans (by rw [hk2])
      obtain ⟨hsn, hcond⟩ := getCacheKey_inj_cur hkeq
      simp only [fetchSetPriceData, Bool.false_eq_true, if_false, hg]
      exact ⟨hsn.symm, hcond.symm, hc2⟩

theorem processSetsGo_mirror (t : ℕ) (now : Int) (outs : ℕ → SubCallData)
    (cur : String) (fr : Bool) :
    ∀ (sets : List SetEntry) (i : ℕ) (cache : CacheMap), CacheInv cur cache →
      (processSetsGo t now outs cur fr i cache sets).1.map
          (fun r => (r.setNumber, r.condition)) =
        sets.map (fun s => (s.setNumber, s.condition)) := by
  intro sets
  induction sets with
  | nil => intro i cache _; rfl
  | cons s rest ih =>
    intro i cache hinv
    obtain ⟨h1, h2, h3⟩ := fetchSetPriceData_mirror t now cache s.setNumber s.condition cur fr
      (outs i).sold (outs i).stock (outs i).item hinv
    simp only [processSetsGo, List.map_cons]
    rw [ih (i + 1) _ h3, h1, h2]

/-- Claim C5: `deduplicateSets` keeps exactly the first occurrence of
each distinct (setNumber, condition) pair in first-seen order — the
seen-set key collides only for equal pairs — and `processSets` on the
deduplicated list (starting from an empty cache, as the route does on a
fresh process) returns exactly one result per unique pair, mirroring the
pair at the same position. -/
theorem C5_dedup_and_result_order :
    (∀ sets : List SetEntry, deduplicateSets sets = keepFirstOccurrences sets) ∧
    (∀ (ttlHours : ℕ) (now : Int) (outs : ℕ → SubCallData) (cur : String) (fr : Bool)
        (sets : List SetEntry),
      (processSets ttlHours now outs [] (deduplicateSets sets) cur fr).1.length =
        (deduplicateSets sets).length ∧
      (processSets ttlHours now outs [] (deduplicateSets sets) cur fr).1.map
          (fun r => (r.setNumber, r.condition)) =
        (deduplicateSets sets).map (fun s => (s.setNumber, s.condition))) := by
  constructor
  · intro sets
    rw [deduplicateSets, deduplicateSetsGo_eq_keepFirst]
    congr 1
    simp
  · intro t n outs cur fr sets
    exact ⟨processSetsGo_length t n outs cur fr _ 0 [],
      processSetsGo_mirror t n outs cur fr _ 0 []
        (fun kv hkv => absurd hkv (List.not_mem_nil kv))⟩

/-! ## Claim C8 — the OAuth signature pipeline -/

/-- Counterexample to claim C8 as stated: with parameter map
`{z: 1, "\x7b": 2}` the source sorts the RAW keys (`z` before `\x7b`,
code units 0x7A < 0x7B), while sorting by PERCENT-ENCODED key as the
claim demands puts `%7B` first (`%` = 0x25 < `z`); the parameter strings
— and hence the signature base strings — differ. -/
theorem C8_counterexample_encoded_key_order :
    sortedParamsString [("z", "1"), ("\x7b", "2")] = "z=1&%7B=2" ∧
    claimEncodedKeySortedParamString [("z", "1"), ("\x7b", "2")] = "%7B=2&z=1" ∧
    signatureBaseString "get" "https://api.bricklink.com/api/store/v1/items"
        [("z", "1"), ("\x7b", "2")] ≠
      String.intercalate "&" [jsToUpper "get",
        percentEncode "https://api.bricklink.com/api/store/v1/items",
        percentEncode (claimEncodedKeySortedParamString [("z", "1"), ("\x7b", "2")])] :=
  ⟨by decide, by decide, by decide⟩

theorem find?_key_of_nodup {params : List (String × String)} {p : String × String}
    (hnd : (params.map (fun q => q.1)).Nodup) (hp : p ∈ params) :
    params.find? (fun q => q.1 == p.1) = some p := by
  induction params with
  | nil => cases hp
  | cons q rest ih =>
    simp only [List.map_cons, List.nodup_cons] at hnd
    rcases List.mem_cons.mp hp with rfl | hmem
    · exact List.find?_cons_of_pos rest (beq_self_eq_true _)
    · by_cases hq : (q.1 == p.1) = true
      · exfalso
        refine hnd.1 ?_
        rw [eq_of_beq hq]
        exact List.mem_map.mpr ⟨p, hmem, rfl⟩
      · rw [List.find?_cons_of_neg rest hq]
        exact ih hnd.2 hmem

/-- For a parameter map with unique keys, sorting the key list and
looking each key back up (the source) produces the same `k=v` string as
sorting the key/value pairs by key (the specification reading). -/
theorem sortedParamsString_eq_spec (params : List (String × String))
    (hnd : (params.map (fun p => p.1)).Nodup) :
    sortedParamsString params = specSortedPairsParamString params := by
  unfold sortedParamsString specSortedPairsParamString
  congr 1
  have hA : (List.insertionSort (fun p q : String × String => p.1.data ≤ q.1.data) params).map
      (fun p => p.1) =
      List.insertionSort (fun a b : String => a.data ≤ b.data) (params.map (fun p => p.1)) := by
    refine List.eq_of_perm_of_sorted ?_ ?_ (List.sorted_insertionSort _ _)
    · exact ((List.perm_insertionSort _ params).map _).trans
        (List.perm_insertionSort _ _).symm
    · exact List.pairwise_map.mpr (List.sorted_insertionSort _ params)
  rw [← hA, List.map_map]
  refine List.map_congr_left (fun p hp => ?_)
  have hpmem : p ∈ params := ((List.perm_insertionSort _ params).mem_iff).mp hp
  have hlook : paramLookup params p.1 = p.2 := by
    unfold paramLookup
    rw [find?_key_of_nodup hnd hpmem]
    rfl
  simp only [Function.comp_apply, hlook]

/-- Claim C8 amended: for a parameter map with unique keys the Signer
percent-encodes per the OAuth rules (the `!'()*` extras included), sorts
the combined parameters by RAW key ascending (JS code-unit order — not
by percent-encoded key, which differs for keys outside the unreserved
set), joins them as `k=v` with `&`, forms the base string
`METHOD&enc(URL)&enc(params)`, and returns the base64 HMAC-SHA1 of that
base string under the key `enc(consumerSecret)&enc(tokenSecret)`. -/
theorem C8_signature_sorts_raw_keys (consumerSecret tokenSecret method url : String)
    (params : List (String × String)) (hnd : (params.map (fun p => p.1)).Nodup) :
    sortedParamsString params = specSortedPairsParamString params ∧
    generateSignature consumerSecret tokenSecret method url params =
      base64Encode (hmacSha1 (strBytes (signingKey consumerSecret tokenSecret))
        (strBytes (specSignatureBaseString method url params))) := by
  have h := sortedParamsString_eq_spec params hnd
  refine ⟨h, ?_⟩
  unfold generateSignature signatureBaseString specSignatureBaseString
  rw [h]

/-- Witness for C8 (amended) at the real query map of a price-guide
call. -/
theorem C8_signature_sorts_raw_keys_witness :
    (([("guide_type", "sold"), ("new_or_used", "N"), ("currency_code", "GBP")].map
      (fun p : String × String => p.1)).Nodup) ∧
    sortedParamsString [("guide_type", "sold"), ("new_or_used", "N"), ("currency_code", "GBP")] =
      specSortedPairsParamString
        [("guide_type", "sold"), ("new_or_used", "N"), ("currency_code", "GBP")] :=
  ⟨by decide,
    (C8_signature_sorts_raw_keys "cs" "ts" "GET"
      "https://api.bricklink.com/api/store/v1/items/SET/10188-1/price"
      [("guide_type", "sold"), ("new_or_used", "N"), ("currency_code", "GBP")]
      (by decide)).1⟩

/-! ## Claim C3 — the rolling-window rate limiter -/

theorem rlEvict_filter (c d : ℚ) (hist : List ℚ) (hcd : c ≤ d) :
    rlEvict d (hist.filter (fun x => decide (c < x))) =
      hist.filter (fun x => decide (d < x)) := by
  unfold rlEvict
  rw [List.filter_filter]
  refine List.filter_congr (fun x _ => ?_)
  by_cases h : d < x
  · have hcx : c < x := lt_of_le_of_lt hcd h
    simp [h, hcx]
  · simp [h]

theorem pairwise_getLast?_rel {l : List ℚ} {r : ℚ → ℚ → Prop} (h : l.Pairwise r) {m : ℚ}
    (hm : l.getLast? = some m) : ∀ x ∈ l, x = m ∨ r x m := by
  obtain ⟨ys, rfl⟩ := List.getLast?_eq_some_iff.mp hm
  intro x hx
  rcases List.mem_append.mp hx with hx | hx
  · right
    exact (List.pairwise_append.mp h).2.2 x hx m (List.mem_singleton_self m)
  · left
    simpa using hx

/-- A list of timestamps pairwise separated by `s` has at most `R`
elements inside a half-open window of width `R·s`. -/
theorem sep_window_bound (s : ℚ) (_hs : 0 < s) :
    ∀ (l : List ℚ) (R : ℕ) (T : ℚ), l.Pairwise (fun a b => a + s ≤ b) →
      (∀ x ∈ l, T - R * s < x ∧ x ≤ T) → l.length ≤ R := by
  intro l
  induction l with
  | nil => intro R T _ _; exact Nat.zero_le R
  | cons a rest ih =>
    intro R T hpw hmem
    obtain ⟨ha1, ha2⟩ := hmem a (List.mem_cons_self a rest)
    cases R with
    | zero =>
      exfalso
      push_cast at ha1
      linarith
    | succ r =>
      rcases List.pairwise_cons.mp hpw with ⟨hra, hrest⟩
      have hlen : rest.length ≤ r := by
        refine ih r T hrest (fun x hx => ?_)
        obtain ⟨h1, h2⟩ := hmem x (List.mem_cons_of_mem a hx)
        refine ⟨?_, h2⟩
        have hax : a + s ≤ x := hra x hx
        have ha1' : T - (r + 1 : ℕ) * s < a := ha1
        push_cast at ha1' ⊢
        linarith
      simpa [List.length_cons] using Nat.succ_le_succ hlen

/-- The spacing phase: the clock only advances, every known timestamp
ends up at least `s` behind the new clock, and the retained list stays a
recent filter of the history. -/
theorem rlSpacing_spec (s now : ℚ) (hist ts1 : List ℚ) (hs0 : 0 < s) (hs6 : s ≤ 60000)
    (hpw : hist.Pairwise (fun a b => a + s ≤ b))
    (hts1 : ts1 = hist.filter (fun x => decide (now - 60000 < x))) :
    now ≤ (rlSpacing s now ts1).1 ∧
    (∀ x ∈ hist, x + s ≤ (rlSpacing s now ts1).1) ∧
    ∃ c2, now - 60000 ≤ c2 ∧ c2 ≤ (rlSpacing s now ts1).1 - 60000 ∧
      (rlSpacing s now ts1).2 = hist.filter (fun x => decide (c2 < x)) := by
  have hout : ∀ x ∈ hist, ¬(now - 60000 < x) → x + s ≤ now := by
    intro x _ hx
    push_neg at hx
    linarith
  rcases hlast : ts1.getLast? with _ | lastReq
  · have hnil : ts1 = [] := List.getLast?_eq_none_iff.mp hlast
    have hall : ∀ x ∈ hist, ¬(now - 60000 < x) := by
      intro x hx
      have := List.filter_eq_nil_iff.mp (hnil ▸ hts1.symm) x hx
      simpa using this
    simp only [rlSpacing, hlast]
    refine ⟨le_refl now, fun x hx => hout x hx (hall x hx), now - 60000, le_refl _, ?_, ?_⟩
    · linarith
    · exact hts1
  · have hlmem : lastReq ∈ ts1 := by
      obtain ⟨ys, hys⟩ := List.getLast?_eq_some_iff.mp hlast
      rw [hys]
      exact List.mem_append.mpr (Or.inr (List.mem_singleton_self lastReq))
    have hpw1 : ts1.Pairwise (fun a b => a + s ≤ b) := by
      rw [hts1]
      exact hpw.sublist (List.filter_sublist hist)
    have hxle : ∀ x ∈ ts1, x ≤ lastReq := by
      intro x hx
      rcases pairwise_getLast?_rel hpw1 hlast x hx with rfl | hx2
      · exact le_refl x
      · linarith
    have hmem_of : ∀ x ∈ ts1, x ∈ hist := by
      intro x hx
      rw [hts1] at hx
      exact List.mem_of_mem_filter hx
    by_cases hsp : now - lastReq < s
    · simp only [rlSpacing, hlast, if_pos hsp]
      have hadv : now ≤ now + (s - (now - lastReq)) := by linarith
      refine ⟨hadv, ?_, now + (s - (now - lastReq)) - 60000, by linarith, le_refl _, ?_⟩
      · intro x hx
        by_cases hin : now - 60000 < x
        · have hx1 : x ∈ ts1 := by
            rw [hts1]
            exact List.mem_filter.mpr ⟨hx, by simpa using hin⟩
          have := hxle x hx1
          linarith
        · have := hout x hx hin
          linarith
      · rw [hts1, rlEvict_filter (now - 60000) _ hist (by linarith)]
    · simp only [rlSpacing, hlast, if_neg hsp]
      push_neg at hsp
      refine ⟨le_refl now, ?_, now - 60000, le_refl _, by linarith, hts1⟩
      intro x hx
      by_cases hin : now - 60000 < x
      · have hx1 : x ∈ ts1 := by
          rw [hts1]
          exact List.mem_filter.mpr ⟨hx, by simpa using hin⟩
        have := hxle x hx1
        linarith
      · exact hout x hx hin

/-- The safety phase: the clock only advances and the retained list
stays a recent filter of the history. -/
theorem rlSafety_spec (r : ℕ) (nowOrig now2 : ℚ) (hist ts2 : List ℚ)
    (c2 : ℚ) (hc2 : c2 ≤ now2 - 60000)
    (hts2 : ts2 = hist.filter (fun x => decide (c2 < x))) :
    now2 ≤ (rlSafety r nowOrig now2 ts2).1 ∧
    ∃ c3, c3 ≤ (rlSafety r nowOrig now2 ts2).1 - 60000 ∧
      (rlSafety r nowOrig now2 ts2).2 = hist.filter (fun x => decide (c3 < x)) := by
  simp only [rlSafety]
  by_cases hlen : r ≤ ts2.length
  · rw [if_pos hlen]
    by_cases hw : 0 < 60000 - (nowOrig - ts2.headD 0) + 100
    · rw [if_pos hw]
      refine ⟨?_, now2 + (60000 - (nowOrig - ts2.headD 0) + 100) - 60000, le_refl _, ?_⟩
      · show now2 ≤ now2 + (60000 - (nowOrig - ts2.headD 0) + 100)
        linarith
      · show rlEvict (now2 + (60000 - (nowOrig - ts2.headD 0) + 100) - 60000) ts2 = _
        rw [hts2] at hw ⊢
        rw [rlEvict_filter c2 _ hist (by linarith)]
    · rw [if_neg hw]
      exact ⟨le_refl now2, c2, hc2, hts2⟩
  · rw [if_neg hlen]
    exact ⟨le_refl now2, c2, hc2, hts2⟩

/-- One gated dispatch preserves the rate-limiter invariant. -/
theorem waitForRateLimit_inv (cfg : RLConfig) (hR : 1 ≤ cfg.requestsPerMinute)
    (env : RLCallEnv) (hcw : 0 ≤ env.concWait) (st : RLState) (hinv : RLInv cfg st) :
    RLInv cfg (waitForRateLimit cfg env st) := by
  obtain ⟨hpw, hub, c, hc, hts⟩ := hinv
  have hRq : (0 : ℚ) < (cfg.requestsPerMinute : ℚ) := by exact_mod_cast hR
  have hs0 : (0 : ℚ) < 60000 / (cfg.requestsPerMinute : ℚ) := div_pos (by norm_num) hRq
  have hs6 : (60000 : ℚ) / (cfg.requestsPerMinute : ℚ) ≤ 60000 := by
    apply div_le_self (by norm_num)
    exact_mod_cast hR
  have hts1 : rlEvict (st.now - 60000) st.requestTimestamps =
      st.history.filter (fun x => decide (st.now - 60000 < x)) := by
    rw [hts]
    exact rlEvict_filter c _ st.history hc
  obtain ⟨hadv2, hsep2, c2, hc2lo, hc2, hts2⟩ :=
    rlSpacing_spec (60000 / (cfg.requestsPerMinute : ℚ)) st.now st.history
      (rlEvict (st.now - 60000) st.requestTimestamps) hs0 hs6 hpw hts1
  obtain ⟨hadv3, c3, hc3, hts3⟩ :=
    rlSafety_spec cfg.requestsPerMinute st.now
      (rlSpacing (60000 / (cfg.requestsPerMinute : ℚ)) st.now
        (rlEvict (st.now - 60000) st.requestTimestamps)).1
      st.history
      (rlSpacing (60000 / (cfg.requestsPerMinute : ℚ)) st.now
        (rlEvict (st.now - 60000) st.requestTimestamps)).2
      c2 hc2 hts2
  simp only [waitForRateLimit, RLInv]
  refine ⟨?_, ?_, ?_⟩
  · rw [List.pairwise_append]
    refine ⟨hpw, List.pairwise_singleton _ _, ?_⟩
    intro x hx y hy
    rw [List.mem_singleton.mp hy]
    have := hsep2 x hx
    linarith
  · intro x hx
    rcases List.mem_append.mp hx with hx | hx
    · have := hub x hx
      linarith
    · rw [List.mem_singleton.mp hx]
  · refine ⟨c3, by linarith, ?_⟩
    rw [List.filter_append, hts3]
    congr 1
    rw [List.filter_cons, List.filter_nil]
    rw [if_pos]
    simp only [decide_eq_true_eq]
    linarith

/-- The invariant holds along any run from the fresh client state. -/
theorem runRateLimiter_inv (cfg : RLConfig) (hR : 1 ≤ cfg.requestsPerMinute)
    (t0 : ℚ) (envs : List RLCallEnv)
    (hpos : ∀ e ∈ envs, 0 ≤ e.delta ∧ 0 ≤ e.concWait) :
    RLInv cfg (runRateLimiter cfg t0 envs) := by
  unfold runRateLimiter
  have hgen : ∀ (l : List RLCallEnv) (st : RLState), (∀ e ∈ l, 0 ≤ e.delta ∧ 0 ≤ e.concWait) →
      RLInv cfg st →
      RLInv cfg (l.foldl
        (fun st env => waitForRateLimit cfg env { st with now := st.now + env.delta }) st) := by
    intro l
    induction l with
    | nil => intro st _ h; exact h
    | cons e rest ih =>
      intro st hl hst
      obtain ⟨hd, hcw⟩ := hl e (List.mem_cons_self e rest)
      rw [List.foldl_cons]
      refine ih _ (fun x hx => hl x (List.mem_cons_of_mem e hx)) ?_
      refine waitForRateLimit_inv cfg hR e hcw _ ?_
      obtain ⟨hpw, hub, c, hc, hts⟩ := hst
      exact ⟨hpw, fun x hx => le_trans (hub x hx) (by simpa using by linarith),
        c, by simpa using by linarith, hts⟩
  refine hgen envs (rlInitState t0) hpos ?_
  exact ⟨List.Pairwise.nil, fun x hx => absurd hx (List.not_mem_nil x),
    t0 - 60000, le_refl _, rfl⟩

/-- Claim C3: with rate R ≥ 1 and a simulated clock, any run of gated
dispatches leaves at most R recorded dispatch timestamps in every
trailing 60-second window; and each call records its dispatch timestamp
and increments the active-request counter (net of completions observed
while waiting) before returning the state to the caller. -/
theorem C3_rate_limiter_window_and_record (cfg : RLConfig)
    (hR : 1 ≤ cfg.requestsPerMinute) (t0 : ℚ) (envs : List RLCallEnv)
    (hpos : ∀ e ∈ envs, 0 ≤ e.delta ∧ 0 ≤ e.concWait) :
    (∀ T : ℚ, windowCount (runRateLimiter cfg t0 envs).history T ≤ cfg.requestsPerMinute) ∧
    (∀ (env : RLCallEnv) (st : RLState),
      (waitForRateLimit cfg env st).history =
        st.history ++ [(waitForRateLimit cfg env st).now] ∧
      (waitForRateLimit cfg env st).activeRequests =
        st.activeRequests - env.completions + 1) := by
  constructor
  · intro T
    obtain ⟨hpw, -, -⟩ := runRateLimiter_inv cfg hR t0 envs hpos
    unfold windowCount
    have hRq : (0 : ℚ) < (cfg.requestsPerMinute : ℚ) := by exact_mod_cast hR
    have hs0 : (0 : ℚ) < 60000 / (cfg.requestsPerMinute : ℚ) := div_pos (by norm_num) hRq
    refine sep_window_bound (60000 / (cfg.requestsPerMinute : ℚ)) hs0 _
      cfg.requestsPerMinute T (hpw.sublist (List.filter_sublist _)) ?_
    intro x hx
    have hx2 := (List.mem_filter.mp hx).2
    simp only [decide_eq_true_eq] at hx2
    have hRs : (cfg.requestsPerMinute : ℚ) * (60000 / (cfg.requestsPerMinute : ℚ)) = 60000 := by
      field_simp
    rw [hRs]
    exact hx2
  · intro env st
    exact ⟨rfl, rfl⟩

/-- Witness for C3: ten back-to-back dispatches at R = 5 per minute. -/
theorem C3_rate_limiter_witness :
    1 ≤ 5 ∧
    (∀ T : ℚ, windowCount
      (runRateLimiter ⟨5, 3⟩ 0 (List.replicate 10 ⟨0, 0, 0⟩)).history T ≤ 5) :=
  ⟨by decide,
    (C3_rate_limiter_window_and_record ⟨5, 3⟩ (by decide) 0 (List.replicate 10 ⟨0, 0, 0⟩)
      (fun e he => by rw [List.eq_of_mem_replicate he]; exact ⟨le_refl 0, le_refl 0⟩)).1⟩
